import Mathlib

/-!
A verification development for the iframe-rpc repository: a shallow embedding
of the provider (iframe-rpc-server) and consumer (iframe-rpc-client) cores,
with the shared utilities they are built on, and proofs about them.

Host values are modelled as finite trees (`JSValue`): own enumerable data
properties of plain objects and array elements are represented; host-level
accessor/prototype machinery and reference identity (cycles, aliasing) are
outside the model, so identity-keyed tables (WeakSet/WeakMap guards) that the
source uses purely for cycle termination never fire on tree data and are
omitted where noted.  Machine timestamps are `Int` milliseconds.
-/

namespace IframeRpc

/-- A JavaScript value, as a finite tree.
`func fid` is a function with opaque identity `fid`; `exotic tag isView j`
is a host object with brand tag `tag` (for example a Date, Map or WeakMap),
`isView` mirroring `ArrayBuffer.isView`, and `j` its JSON text (opaque data
of the embedded value).  `obj` holds the own enumerable data properties in
order; `arr` the elements. -/
inductive JSValue : Type where
  | undef : JSValue
  | null : JSValue
  | bool (b : Bool) : JSValue
  | num (n : Int) : JSValue
  | str (s : String) : JSValue
  | bigint (n : Int) : JSValue
  | func (fid : Nat) : JSValue
  | exotic (tag : String) (isView : Bool) (jsonRepr : String) : JSValue
  | obj (fields : List (String × JSValue)) : JSValue
  | arr (elems : List JSValue) : JSValue
deriving Repr

namespace JSValue

/-- JS truthiness (`!v` is its negation): `undefined`, `null`, `false`, `0`,
`0n` and `""` are falsy; every object and function is truthy. -/
def truthy : JSValue → Bool
  | .undef => false
  | .null => false
  | .bool b => b
  | .num n => n != 0
  | .str s => s != ""
  | .bigint n => n != 0
  | _ => true

/-- `isObject(val)`: `val !== null && typeof val === 'object'`
(src/packages/iframe-rpc-server/src/index.ts).  Functions have
`typeof === 'function'` and are not objects. -/
def isObject : JSValue → Bool
  | .obj _ => true
  | .arr _ => true
  | .exotic _ _ _ => true
  | _ => false

/-- `typeof v === 'function'`. -/
def isFunc : JSValue → Bool
  | .func _ => true
  | _ => false

/-- `brandTag(val)`: `Object.prototype.toString.call(val)`. -/
def brandTag : JSValue → String
  | .undef => "[object Undefined]"
  | .null => "[object Null]"
  | .bool _ => "[object Boolean]"
  | .num _ => "[object Number]"
  | .str _ => "[object String]"
  | .bigint _ => "[object BigInt]"
  | .func _ => "[object Function]"
  | .exotic tag _ _ => tag
  | .obj _ => "[object Object]"
  | .arr _ => "[object Array]"

/-- `isTypedArray(val)`: `ArrayBuffer.isView(val)` (true for typed arrays and
DataView); recorded as the `isView` field of exotic host objects. -/
def isTypedArray : JSValue → Bool
  | .exotic _ isView _ => isView
  | _ => false

/-- `isStructuredClonePassThrough(val)`: brand-tag membership for the
broadly supported structured-clone builtins, plus typed-array views. -/
def isStructuredClonePassThrough (val : JSValue) : Bool :=
  let tag := brandTag val
  if tag == "[object Date]" || tag == "[object RegExp]" || tag == "[object ArrayBuffer]"
      || tag == "[object DataView]" || tag == "[object Blob]" || tag == "[object File]"
      || tag == "[object ImageData]" then true
  else if tag == "[object Map]" || tag == "[object Set]" then true
  else if isTypedArray val then true
  else false

end JSValue

/-- Parse a decimal array-index segment (all-digit, nonempty), the cases in
which `cur[p]` on an array reaches an element.  Non-canonical numerals such
as `"01"` are not distinguished; the repository only builds canonical
`String(i)` segments. -/
def segToNat? (s : String) : Option Nat :=
  let cs := s.toList
  if cs ≠ [] ∧ cs.all Char.isDigit then
    some (cs.foldl (fun n c => 10 * n + (c.toNat - 48)) 0)
  else none

namespace JSValue

/-- Property read `cur[p]`: field lookup on plain objects; on arrays a
numeric segment indexes the elements (the repository only ever addresses
arrays by index paths); anything else reads as `undefined`. -/
def getProp : JSValue → String → JSValue
  | .obj fields, p => ((fields.find? (fun e => e.1 == p)).map (·.2)).getD .undef
  | .arr elems, p =>
    match segToNat? p with
    | some i => (elems.get? i).getD .undef
    | none => .undef
  | _, _ => .undef

end JSValue

open JSValue

/-- `path.split('.')` as a character walk: split on every `'.'`, keeping
empty pieces, so `"".split('.') = [""]` and `"a..b".split('.') =
["a", "", "b"]`. -/
def splitPathAux : List Char → List Char → List String
  | [], acc => [String.mk acc.reverse]
  | c :: cs, acc =>
    if c = '.' then String.mk acc.reverse :: splitPathAux cs []
    else splitPathAux cs (c :: acc)

/-- `path.split('.')`. -/
def splitPath (path : String) : List String :=
  splitPathAux path.toList []

/-- The shared walk of both `getDeep` loops:
`for (const p of parts) { if (!cur) return undefined; cur = cur[p] }`. -/
def getDeepLoop : JSValue → List String → JSValue
  | cur, [] => cur
  | cur, p :: ps => if cur.truthy then getDeepLoop (cur.getProp p) ps else (.undef)

/-- `getDeep(obj, path)` of the consumer (src/packages/iframe-rpc-client and
src/unnamed/part_002) and of shared/utils.ts: empty path returns the root,
otherwise split on `.` and walk. -/
def getDeep (obj : JSValue) (path : String) : JSValue :=
  if path = "" then obj
  else getDeepLoop obj (splitPath path)

/-- The provider's local `getDeep` inside the CALL handler
(src/packages/iframe-rpc-server/src/index.ts lines 288-296): it has no
empty-path shortcut, it always splits and walks (`"".split "."` is `[""]`). -/
def serverGetDeep (obj : JSValue) (path : String) : JSValue :=
  getDeepLoop obj (splitPath path)

/-- The walk is absorbing at `undefined`: once a segment read yields
`undefined` every continuation stays `undefined`. -/
theorem getDeepLoop_undef (ps : List String) : getDeepLoop .undef ps = .undef := by
  cases ps <;> simp [getDeepLoop, JSValue.truthy]

/-- The walk composes over concatenation of segment lists. -/
theorem getDeepLoop_append (obj : JSValue) (ps qs : List String) :
    getDeepLoop obj (ps ++ qs) = getDeepLoop (getDeepLoop obj ps) qs := by
  induction ps generalizing obj with
  | nil => simp [getDeepLoop]
  | cons p ps ih =>
    simp only [List.cons_append, getDeepLoop]
    by_cases h : obj.truthy
    · simp [h, ih]
    · simp [h, getDeepLoop_undef]

/-- `String.intercalate "."`, the `path.join('.')` used to build dotted paths. -/
def dotted (parts : List String) : String :=
  String.intercalate "." parts

/-! ### serializeError (claim C8)

`serializeError(err)` (src/packages/iframe-rpc-server/src/index.ts lines
219-226): `err instanceof Error` yields its `message`; otherwise
`JSON.stringify(err)` inside a try, falling back to `String(err)` when the
stringification throws. -/

/-- A thrown JS value at the provider's catch site: either an `Error`
instance (the only case `instanceof Error` accepts) carrying its `message`,
or any other value. -/
inductive Thrown : Type where
  | errorInstance (message : String)
  | plain (v : JSValue)

/-- Minimal JSON string quoting (quote and backslash escaped; control
characters are not modelled). -/
def jsonEscape : List Char → String
  | [] => ""
  | c :: cs =>
    (if c = '"' then "\\\"" else if c = '\\' then "\\\\" else String.mk [c]) ++ jsonEscape cs

/-- Quote a string as a JSON literal. -/
def jsonQuote (s : String) : String :=
  "\"" ++ jsonEscape s.toList ++ "\""

mutual
/-- `JSON.stringify(v)` on the modelled trees.  `Except.error ()` is a throw
(`BigInt` values throw `TypeError`; the cyclic case cannot arise on trees);
`Except.ok none` is the calls that return the *value* `undefined`
(top-level `undefined` or a function); `Except.ok (some s)` is a returned
string.  An exotic host object's JSON text is the `jsonRepr` it carries. -/
def jsonStringify : JSValue → Except Unit (Option String)
  | .undef => .ok none
  | .null => .ok (some "null")
  | .bool b => .ok (some (if b then "true" else "false"))
  | .num n => .ok (some (toString n))
  | .str s => .ok (some (jsonQuote s))
  | .bigint _ => .error ()
  | .func _ => .ok none
  | .exotic _ _ j => .ok (some j)
  | .obj fs =>
    match jsonFields fs with
    | .error _ => .error ()
    | .ok pieces => .ok (some ("\x7b" ++ String.intercalate "," pieces ++ "\x7d"))
  | .arr es =>
    match jsonElems es with
    | .error _ => .error ()
    | .ok pieces => .ok (some ("[" ++ String.intercalate "," pieces ++ "]"))

/-- Object members: `undefined`/function members are omitted; a throw
propagates. -/
def jsonFields : List (String × JSValue) → Except Unit (List String)
  | [] => .ok []
  | (k, v) :: fs =>
    match jsonStringify v, jsonFields fs with
    | .error _, _ => .error ()
    | _, .error _ => .error ()
    | .ok none, .ok rest => .ok rest
    | .ok (some s), .ok rest => .ok ((jsonQuote k ++ ":" ++ s) :: rest)

/-- Array elements: `undefined`/function elements serialise as `null`; a
throw propagates. -/
def jsonElems : List JSValue → Except Unit (List String)
  | [] => .ok []
  | v :: es =>
    match jsonStringify v, jsonElems es with
    | .error _, _ => .error ()
    | _, .error _ => .error ()
    | .ok none, .ok rest => .ok ("null" :: rest)
    | .ok (some s), .ok rest => .ok (s :: rest)
end

mutual
/-- `String(v)` for the thrown-value fallback.  `Array.prototype.toString`
joins the string coercions of the elements with `,` (`null`/`undefined`
elements coerce to the empty string); `Date`/`RegExp` custom `toString` is
not modelled (an exotic coerces to its brand tag, the `Object.prototype`
default that Map, Set and the buffer types use). -/
def jsToString : JSValue → String
  | .undef => "undefined"
  | .null => "null"
  | .bool b => if b then "true" else "false"
  | .num n => toString n
  | .str s => s
  | .bigint n => toString n
  | .func _ => "function"
  | .exotic tag _ _ => tag
  | .obj _ => "[object Object]"
  | .arr es => String.intercalate "," (jsToStringElems es)

/-- Element coercions for `Array.prototype.toString`. -/
def jsToStringElems : List JSValue → List String
  | [] => []
  | .undef :: es => "" :: jsToStringElems es
  | .null :: es => "" :: jsToStringElems es
  | v :: es => jsToString v :: jsToStringElems es
end

/-- `serializeError(err)`.  The result is `none` exactly when the JS value
returned is `undefined` (a non-Error throw whose `JSON.stringify` is
`undefined`). -/
def serializeError : Thrown → Option String
  | .errorInstance m => some m
  | .plain v =>
    match jsonStringify v with
    | .ok r => r
    | .error _ => some (jsToString v)

/-! ### Snapshot construction (claims C3, C9)

`listReadableKeys`/`listFunctionKeysForCollect` enumerate own enumerable
data properties here (accessor and prototype-chain members are host
machinery outside the tree model; no claim depends on them): plain objects
yield their field keys, arrays their index strings, pass-through builtins
and every exotic host object yield no keys.  `collectFunctionPaths` and
`cloneValuesOnly` recurse over exactly these keys; their `WeakSet`/`WeakMap`
cycle guards never fire on tree data and are omitted. -/

mutual
/-- `collectFunctionPaths(obj, base)`: walk the readable keys; a function
child emits the dotted path, an object child recurses.  Pass-through
builtins and other exotic host objects enumerate no keys, so nothing inside
them is ever collected; non-objects contribute nothing. -/
def collectFunctionPaths : JSValue → List String → List String
  | .obj fs, base => collectFields fs base
  | .arr es, base => collectElems es 0 base
  | _, _ => []

/-- The object-field traversal of `collectFunctionPaths`. -/
def collectFields : List (String × JSValue) → List String → List String
  | [], _ => []
  | (k, v) :: fs, base =>
    (if v.isFunc then [dotted (base ++ [k])]
     else if v.isObject then collectFunctionPaths v (base ++ [k]) else [])
      ++ collectFields fs base

/-- The array-element traversal of `collectFunctionPaths` (index keys are
the canonical `String(i)`). -/
def collectElems : List JSValue → Nat → List String → List String
  | [], _, _ => []
  | v :: es, i, base =>
    (if v.isFunc then [dotted (base ++ [Nat.repr i])]
     else if v.isObject then collectFunctionPaths v (base ++ [Nat.repr i]) else [])
      ++ collectElems es (i + 1) base
end

mutual
/-- `cloneValuesOnly(obj)`: functions become `undefined`, non-objects are
returned as-is, pass-through builtins are reused (the Map/Set
entry-sanitising branch is invisible on an opaque exotic), other exotic
host objects enumerate no readable keys and clone to `{}`, arrays clone
element-wise and plain objects clone their readable keys skipping
functions. -/
def cloneValuesOnly : JSValue → JSValue
  | .func _ => .undef
  | .obj fs => .obj (cloneFields fs)
  | .arr es => .arr (cloneElems es)
  | .exotic t w j =>
    if isStructuredClonePassThrough (.exotic t w j) then .exotic t w j else .obj []
  | v => v

/-- Object-field clone: function members are skipped. -/
def cloneFields : List (String × JSValue) → List (String × JSValue)
  | [] => []
  | (k, v) :: fs =>
    if v.isFunc then cloneFields fs else (k, cloneValuesOnly v) :: cloneFields fs

/-- Array-element clone: `outArr[i] = cloneValuesOnly(obj[i])`, so function
elements become `undefined` in place. -/
def cloneElems : List JSValue → List JSValue
  | [] => []
  | v :: es => cloneValuesOnly v :: cloneElems es
end

mutual
/-- The spec-side reachability reading of C3: a function is reachable at or
under `v` through plain objects and arrays (pass-through builtins are
leaves, so nothing inside them counts). -/
def containsFunction : JSValue → Bool
  | .obj fs => fieldsContainFunction fs
  | .arr es => elemsContainFunction es
  | _ => false

/-- Field disjunct of `containsFunction`. -/
def fieldsContainFunction : List (String × JSValue) → Bool
  | [] => false
  | (_, v) :: fs => v.isFunc || containsFunction v || fieldsContainFunction fs

/-- Element disjunct of `containsFunction`. -/
def elemsContainFunction : List JSValue → Bool
  | [] => false
  | v :: es => v.isFunc || containsFunction v || elemsContainFunction es
end

/-- A value that is not an object contains no reachable function. -/
theorem containsFunction_of_not_isObject (v : JSValue) (h : v.isObject = false) :
    containsFunction v = false := by
  cases v <;> simp_all [JSValue.isObject, containsFunction]

mutual
/-- The collector emits no path from `v` exactly when no function is
reachable at or under `v`. -/
theorem collect_eq_nil_iff : ∀ (v : JSValue) (base : List String),
    (collectFunctionPaths v base = [] ↔ containsFunction v = false)
  | .obj fs, base => by
    rw [show collectFunctionPaths (.obj fs) base = collectFields fs base from rfl,
      show containsFunction (.obj fs) = fieldsContainFunction fs from rfl]
    exact collectFields_eq_nil_iff fs base
  | .arr es, base => by
    rw [show collectFunctionPaths (.arr es) base = collectElems es 0 base from rfl,
      show containsFunction (.arr es) = elemsContainFunction es from rfl]
    exact collectElems_eq_nil_iff es 0 base
  | .undef, base => by simp [collectFunctionPaths, containsFunction]
  | .null, base => by simp [collectFunctionPaths, containsFunction]
  | .bool b, base => by simp [collectFunctionPaths, containsFunction]
  | .num n, base => by simp [collectFunctionPaths, containsFunction]
  | .str s, base => by simp [collectFunctionPaths, containsFunction]
  | .bigint n, base => by simp [collectFunctionPaths, containsFunction]
  | .func f, base => by simp [collectFunctionPaths, containsFunction]
  | .exotic t w j, base => by simp [collectFunctionPaths, containsFunction]

/-- Field version of `collect_eq_nil_iff`. -/
theorem collectFields_eq_nil_iff : ∀ (fs : List (String × JSValue)) (base : List String),
    (collectFields fs base = [] ↔ fieldsContainFunction fs = false)
  | [], base => by simp [collectFields, fieldsContainFunction]
  | (k, v) :: fs, base => by
    rw [show collectFields ((k, v) :: fs) base =
        (if v.isFunc then [dotted (base ++ [k])]
         else if v.isObject then collectFunctionPaths v (base ++ [k]) else [])
          ++ collectFields fs base from rfl,
      show fieldsContainFunction ((k, v) :: fs) =
        (v.isFunc || containsFunction v || fieldsContainFunction fs) from rfl]
    by_cases hf : v.isFunc
    · simp [hf]
    · by_cases ho : v.isObject
      · rw [if_neg (by simpa using hf), if_pos ho, List.append_eq_nil,
          collect_eq_nil_iff v (base ++ [k]), collectFields_eq_nil_iff fs base]
        simp [Bool.not_eq_true] at hf
        simp [hf]
      · have hc := containsFunction_of_not_isObject v (by simpa using ho)
        rw [if_neg (by simpa using hf), if_neg (by simpa using ho), List.nil_append,
          collectFields_eq_nil_iff fs base]
        simp [Bool.not_eq_true] at hf
        simp [hf, hc]

/-- Element version of `collect_eq_nil_iff`. -/
theorem collectElems_eq_nil_iff : ∀ (es : List JSValue) (i : Nat) (base : List String),
    (collectElems es i base = [] ↔ elemsContainFunction es = false)
  | [], i, base => by simp [collectElems, elemsContainFunction]
  | v :: es, i, base => by
    rw [show collectElems (v :: es) i base =
        (if v.isFunc then [dotted (base ++ [Nat.repr i])]
         else if v.isObject then collectFunctionPaths v (base ++ [Nat.repr i]) else [])
          ++ collectElems es (i + 1) base from rfl,
      show elemsContainFunction (v :: es) =
        (v.isFunc || containsFunction v || elemsContainFunction es) from rfl]
    by_cases hf : v.isFunc
    · simp [hf]
    · by_cases ho : v.isObject
      · rw [if_neg (by simpa using hf), if_pos ho, List.append_eq_nil,
          collect_eq_nil_iff v (base ++ [Nat.repr i]), collectElems_eq_nil_iff es (i + 1) base]
        simp [Bool.not_eq_true] at hf
        simp [hf]
      · have hc := containsFunction_of_not_isObject v (by simpa using ho)
        rw [if_neg (by simpa using hf), if_neg (by simpa using ho), List.nil_append,
          collectElems_eq_nil_iff es (i + 1) base]
        simp [Bool.not_eq_true] at hf
        simp [hf, hc]
end

/-! ### Provider core (claims C1, C3, C5, C9)

`createIframeRpcServer` keeps two Maps, `handles : id → value` and
`handleMeta : id → { lastUsed }`, modelled as insertion-ordered association
lists (a JS Map key occurs once). -/

/-- The provider's two handle tables. -/
structure HandleTables where
  handles : List (String × JSValue)
  handleMeta : List (String × Int)
deriving Repr

/-- Handle kind on the wire. -/
inductive HandleKind : Type where
  | function
  | object
deriving Repr, DecidableEq

/-- A `RESULT.result` payload: either the raw value, or a handle payload
`{ __rpc__: 'handle', id, kind, values?, functions? }` (the provider emits
`values`/`functions` only for object kind). -/
inductive ResultPayload : Type where
  | raw (v : JSValue)
  | handle (id : String) (kind : HandleKind) (values : Option JSValue)
      (functions : Option (List String))
deriving Repr

/-- Whether a payload is a handle payload. -/
def ResultPayload.isHandle : ResultPayload → Bool
  | .raw _ => false
  | .handle _ _ _ _ => true

/-- The test `typeof result === 'function' || (isObject(result) &&
collectFunctionPaths(result).length > 0)` guarding handle creation. -/
def hasFunctions (result : JSValue) : Bool :=
  result.isFunc || (result.isObject && !(collectFunctionPaths result []).isEmpty)

/-- The guard equals the spec's reading: the value is a function, or a
non-pass-through object at or under which a function is reachable. -/
theorem hasFunctions_iff (result : JSValue) :
    hasFunctions result =
      (result.isFunc ||
        (result.isObject && !result.isStructuredClonePassThrough && containsFunction result)) := by
  cases result with
  | obj fs =>
    have h := collect_eq_nil_iff (.obj fs) []
    simp only [hasFunctions, JSValue.isObject, JSValue.isFunc, Bool.false_or, Bool.true_and,
      JSValue.isStructuredClonePassThrough, JSValue.brandTag, JSValue.isTypedArray]
    cases hc : containsFunction (.obj fs) with
    | false => simp [List.isEmpty_iff, h.2 hc]
    | true =>
      have : ¬ collectFunctionPaths (.obj fs) [] = [] := fun hnil => by simp [h.1 hnil] at hc
      simp [List.isEmpty_iff, this]
  | arr es =>
    have h := collect_eq_nil_iff (.arr es) []
    simp only [hasFunctions, JSValue.isObject, JSValue.isFunc, Bool.false_or, Bool.true_and,
      JSValue.isStructuredClonePassThrough, JSValue.brandTag, JSValue.isTypedArray]
    cases hc : containsFunction (.arr es) with
    | false => simp [List.isEmpty_iff, h.2 hc]
    | true =>
      have : ¬ collectFunctionPaths (.arr es) [] = [] := fun hnil => by simp [h.1 hnil] at hc
      simp [List.isEmpty_iff, this]
  | exotic t w j =>
    simp [hasFunctions, JSValue.isObject, JSValue.isFunc, collectFunctionPaths,
      containsFunction]
  | _ => rfl

/-- `serializeResult(result)` (src/packages/iframe-rpc-server/src/index.ts
lines 238-255): if the result is a function or an object containing
functions, register it under a fresh id in both tables with
`lastUsed = now` (Map.set appends a new key) and emit a handle payload
(function kind carries no snapshot; object kind carries the scoped
snapshot and function paths); otherwise emit the raw value unchanged. -/
def serializeResult (st : HandleTables) (now : Int) (newId : String) (result : JSValue) :
    ResultPayload × HandleTables :=
  if hasFunctions result then
    let st' : HandleTables :=
      { handles := st.handles ++ [(newId, result)],
        handleMeta := st.handleMeta ++ [(newId, now)] }
    if result.isFunc then (.handle newId .function none none, st')
    else
      (.handle newId .object (some (cloneValuesOnly result))
        (some (collectFunctionPaths result [])), st')
  else (.raw result, st)

/-! ### Wire messages and the provider listener -/

/-- The tagged union of wire messages (the fields each branch of
`RpcMessage` carries).  `ERROR`/`INIT_ERROR` carry an optional string
because `serializeError` can produce the JS value `undefined`. -/
inductive WireMsg : Type where
  | READY (values : JSValue) (functions : List String)
  | GET
  | CALL (id : String) (method : String) (args : List JSValue) (handle : Option String)
  | RESULT (id : String) (result : ResultPayload)
  | ERROR (id : String) (error : Option String)
  | INIT_ERROR (error : Option String)
  | RELEASE_HANDLE (handle : String)
deriving Repr

/-- An envelope: `{ rpc, name, ...msg }`.  `rpcBrand` is whether
`data.rpc === 'iframe-rpc'`. -/
structure Envelope where
  rpcBrand : Bool
  name : String
  msg : WireMsg
deriving Repr

/-- A message event `{ data, origin, source }`; `data = none` models
falsy/garbage event data, `source` is the posting window's identity
(`none` for a null source). -/
structure MessageEvent where
  data : Option Envelope
  origin : String
  source : Option Nat
deriving Repr

/-- The outcome of invoking a provider-side function: the settled value of
`await Promise.resolve(fn.apply(callThis, args))`, or a throw. -/
inductive InvokeResult : Type where
  | returns (v : JSValue)
  | throws (e : Thrown)

/-- The host functions' behaviour, an oracle from function identity and
arguments to the awaited outcome. -/
def Invoker : Type := Nat → List JSValue → InvokeResult

/-- `handles.get(id)`. -/
def lookupHandle (st : HandleTables) (id : String) : Option JSValue :=
  (st.handles.find? (fun e => e.1 == id)).map (·.2)

/-- `const meta = handleMeta.get(handle); if (meta) meta.lastUsed = now`. -/
def refreshMeta (st : HandleTables) (id : String) (now : Int) : HandleTables :=
  { st with handleMeta := st.handleMeta.map (fun e => if e.1 = id then (e.1, now) else e) }

/-- Delete `id` from both tables (`RELEASE_HANDLE`, and each sweeper
eviction). -/
def deleteHandle (st : HandleTables) (id : String) : HandleTables :=
  { handles := st.handles.filter (fun e => ¬ e.1 = id),
    handleMeta := st.handleMeta.filter (fun e => ¬ e.1 = id) }

/-- Method resolution of the CALL branch: a truthy dotted `method` splits
into a parent path (resolved with the provider's local `getDeep`; an empty
parent means the context itself) and a final key read off the target; an
empty `method` designates the context value itself. -/
def resolveFn (ctx : JSValue) (method : String) : JSValue :=
  if method ≠ "" then
    let parts := splitPath method
    let last := (parts.getLast?).getD ""
    let parentPath := dotted parts.dropLast
    let target := if parentPath ≠ "" then serverGetDeep ctx parentPath else ctx
    if target.truthy then target.getProp last else .undef
  else ctx

/-- Invocation and reply of the CALL branch: a non-callable resolution
replies `Method <m|"<root>"> not found`; a call that throws replies ERROR
with the serialised cause; otherwise the awaited result is serialised
(possibly registering a handle) and sent as RESULT. -/
def providerInvokeFn (invoke : Invoker) (now : Int) (freshId : String) (st : HandleTables)
    (id : String) (args : List JSValue) (fid : Nat) : HandleTables × List WireMsg :=
  match invoke fid args with
  | .returns result =>
    let pr := serializeResult st now freshId result
    (pr.2, [.RESULT id pr.1])
  | .throws e => (st, [.ERROR id (serializeError e)])

/-- Dispatch on the resolved method: a non-callable resolution replies
`Method <m|"<root>"> not found`; a function is invoked. -/
def providerInvoke (invoke : Invoker) (now : Int) (freshId : String) (st : HandleTables)
    (id : String) (method : String) (args : List JSValue) (ctx : JSValue) :
    HandleTables × List WireMsg :=
  match resolveFn ctx method with
  | .func fid => providerInvokeFn invoke now freshId st id args fid
  | _ =>
    (st, [.ERROR id (some ("Method " ++ (if method ≠ "" then method else "<root>")
      ++ " not found"))])

/-- The CALL branch of the provider listener: `ctx = handle ?
handles.get(handle) : api`; a truthy handle id that misses the table
replies `Handle <id> not found`, a hit refreshes its `lastUsed`; then the
method is resolved and invoked. -/
def providerCall (api : JSValue) (invoke : Invoker) (now : Int) (freshId : String)
    (st : HandleTables) (id : String) (method : String) (args : List JSValue)
    (handle? : Option String) : HandleTables × List WireMsg :=
  match handle? with
  | some h =>
    if h ≠ "" then
      match lookupHandle st h with
      | none => (st, [.ERROR id (some ("Handle " ++ h ++ " not found"))])
      | some ctx => providerInvoke invoke now freshId (refreshMeta st h now) id method args ctx
    else providerInvoke invoke now freshId st id method args api
  | none => providerInvoke invoke now freshId st id method args api

/-- Dispatch on the message type: answer `GET` with a fresh READY built from
the construction-time snapshot; handle `CALL`; delete on `RELEASE_HANDLE` (a
falsy empty id is ignored); every other message type falls through
untouched. -/
def providerOnMsg (api : JSValue) (invoke : Invoker) (now : Int) (freshId : String)
    (st : HandleTables) (msg : WireMsg) : HandleTables × List WireMsg :=
  match msg with
  | .GET => (st, [.READY (cloneValuesOnly api) (collectFunctionPaths api [])])
  | .CALL id method args handle? => providerCall api invoke now freshId st id method args handle?
  | .RELEASE_HANDLE hid => if hid ≠ "" then (deleteHandle st hid, []) else (st, [])
  | _ => (st, [])

/-- Envelope checks of the provider listener: drop envelopes without the rpc
brand or with another channel name, and events with a null source. -/
def providerOnEnvelope (api : JSValue) (name : String) (invoke : Invoker) (now : Int)
    (freshId : String) (st : HandleTables) (env : Envelope) (source : Option Nat) :
    HandleTables × List WireMsg :=
  if env.rpcBrand = false ∨ env.name ≠ name then (st, [])
  else match source with
  | none => (st, [])
  | some _ => providerOnMsg api invoke now freshId st env.msg

/-- The provider's message listener body
(src/packages/iframe-rpc-server/src/index.ts lines 273-350). -/
def providerHandleData (api : JSValue) (name : String) (invoke : Invoker) (now : Int)
    (freshId : String) (st : HandleTables) (ev : MessageEvent) : HandleTables × List WireMsg :=
  match ev.data with
  | none => (st, [])
  | some env => providerOnEnvelope api name invoke now freshId st env ev.source

/-- An `allowedOrigins` configuration: a list or a predicate. -/
inductive OriginRule : Type where
  | list (origins : List String)
  | pred (f : String → Bool)

/-- The consumer's `isOriginAllowed` (src/unnamed/part_002): no
configuration accepts every origin, a function is applied, a list is a
membership test. -/
def isOriginAllowed (allowedOrigins : Option OriginRule) (origin : String) : Bool :=
  match allowedOrigins with
  | none => true
  | some (.pred f) => f origin
  | some (.list l) => l.contains origin

/-- Modelled from the spec: the provider-side origin policy.  The option is
declared in shared/types.ts (`CreateIframeRpcServerOptions.allowedOrigins`)
but the server revision consuming it is not under src/ (the
src/packages/iframe-rpc-server listener checks no origin); per the spec —
"if `allowedOrigins` is absent, accept all; if a predicate, use it; if a
list, membership test.  Non-matching messages are silently dropped" — a
disallowed origin makes the listener return before touching any state,
exactly as the consumer's `isOriginAllowed` gate does. -/
def providerStep (allowedOrigins : Option OriginRule) (api : JSValue) (name : String)
    (invoke : Invoker) (now : Int) (freshId : String) (st : HandleTables)
    (ev : MessageEvent) : HandleTables × List WireMsg :=
  if isOriginAllowed allowedOrigins ev.origin then
    providerHandleData api name invoke now freshId st ev
  else (st, [])

/-- Defaults and the sweeper gate
(src/packages/iframe-rpc-server/src/index.ts lines 55-58, 353-364). -/
def DEFAULT_TTL : Int := 10 * 60 * 1000

/-- Default sweep interval: 60 seconds. -/
def DEFAULT_SWEEP : Int := 60 * 1000

/-- `ttlMs = Math.max(0, options.handleTtlMs ?? DEFAULT_TTL)`. -/
def ttlMsOf (handleTtlMs? : Option Int) : Int :=
  max 0 (handleTtlMs?.getD DEFAULT_TTL)

/-- `sweepMs = Math.max(0, options.sweepIntervalMs ?? DEFAULT_SWEEP)`. -/
def sweepMsOf (sweepIntervalMs? : Option Int) : Int :=
  max 0 (sweepIntervalMs?.getD DEFAULT_SWEEP)

/-- `if (ttlMs > 0 && sweepMs > 0) setInterval(..., sweepMs)`: the sweeper
timer exists only when both are positive. -/
def sweeperEnabled (handleTtlMs? sweepIntervalMs? : Option Int) : Bool :=
  ttlMsOf handleTtlMs? > 0 && sweepMsOf sweepIntervalMs? > 0

/-- The ids the sweeper loop finds expired: `now - meta.lastUsed > ttlMs`. -/
def expiredIds (ttl now : Int) (st : HandleTables) : List String :=
  (st.handleMeta.filter (fun e => now - e.2 > ttl)).map (·.1)

/-- One sweeper tick: every id whose meta satisfies
`now - lastUsed > ttlMs` is deleted from both tables (the loop walks the
meta entries and deletes each expired id from `handleMeta` and `handles`). -/
def sweepTick (ttl now : Int) (st : HandleTables) : HandleTables :=
  { handles := st.handles.filter (fun e => ¬ (expiredIds ttl now st).contains e.1),
    handleMeta := st.handleMeta.filter (fun e => ¬ (expiredIds ttl now st).contains e.1) }

/-! ### Provider theorems -/

/-- The two tables hold the same key sequence. -/
def sameKeys (st : HandleTables) : Prop :=
  st.handles.map (·.1) = st.handleMeta.map (·.1)

/-- Keys of a filter by a key predicate are the filtered keys. -/
theorem map_fst_filter {α : Type} (l : List (String × α)) (p : String → Bool) :
    ((l.filter (fun e => p e.1)).map (·.1)) = (l.map (·.1)).filter p := by
  induction l with
  | nil => rfl
  | cons e l ih => by_cases h : p e.1 <;> simp [List.filter_cons, h, ih]

/-- A value determined by its key in a table with distinct keys. -/
theorem eq_of_mem_of_nodup_keys {α : Type} {l : List (String × α)}
    (h : (l.map (·.1)).Nodup) {id : String} {a b : α}
    (ha : (id, a) ∈ l) (hb : (id, b) ∈ l) : a = b := by
  induction l with
  | nil => cases ha
  | cons e l ih =>
    simp only [List.map_cons, List.nodup_cons] at h
    rcases List.mem_cons.mp ha with ha' | ha' <;>
      rcases List.mem_cons.mp hb with hb' | hb'
    · rw [← ha'] at hb'; exact (Prod.mk.injEq _ _ _ _ ▸ hb').2.symm ▸ rfl
    · exact absurd (List.mem_map.mpr ⟨_, hb', by rw [← ha']⟩) h.1
    · exact absurd (List.mem_map.mpr ⟨_, ha', by rw [← hb']⟩) h.1
    · exact ih h.2 ha' hb'

/-- `refreshMeta` keeps the key sequence of the meta table. -/
theorem refreshMeta_keys (st : HandleTables) (id : String) (now : Int) :
    (refreshMeta st id now).handleMeta.map (·.1) = st.handleMeta.map (·.1) := by
  simp only [refreshMeta, List.map_map]
  exact List.map_congr_left (fun e _ => by by_cases h : e.1 = id <;> simp [h])

/-- `deleteHandle` preserves key-sequence equality of the two tables. -/
theorem deleteHandle_sameKeys {st : HandleTables} (h : sameKeys st) (id : String) :
    sameKeys (deleteHandle st id) := by
  unfold sameKeys deleteHandle at *
  rw [map_fst_filter st.handles (fun k => decide (¬ k = id)),
    map_fst_filter st.handleMeta (fun k => decide (¬ k = id)), h]

/-- `sweepTick` preserves key-sequence equality of the two tables. -/
theorem sweepTick_sameKeys {st : HandleTables} (h : sameKeys st) (ttl now : Int) :
    sameKeys (sweepTick ttl now st) := by
  unfold sameKeys at *
  simp only [sweepTick]
  rw [map_fst_filter st.handles (fun k => decide (¬ (expiredIds ttl now st).contains k = true)),
    map_fst_filter st.handleMeta (fun k => decide (¬ (expiredIds ttl now st).contains k = true)),
    h]

/-- `serializeResult` preserves key-sequence equality (either both tables
are untouched, or the same fresh id is appended to both). -/
theorem serializeResult_sameKeys {st : HandleTables} (h : sameKeys st) (now : Int)
    (newId : String) (result : JSValue) :
    sameKeys (serializeResult st now newId result).2 := by
  unfold sameKeys serializeResult at *
  by_cases hf : hasFunctions result
  · by_cases hfn : result.isFunc <;> simp [hf, hfn, h]
  · simp [hf, h]

/-- `refreshMeta` preserves key-sequence equality. -/
theorem refreshMeta_sameKeys {st : HandleTables} (h : sameKeys st) (id : String) (now : Int) :
    sameKeys (refreshMeta st id now) := by
  unfold sameKeys at *
  rw [refreshMeta_keys]
  exact h

/-- `providerInvokeFn` preserves key-sequence equality. -/
theorem providerInvokeFn_sameKeys {st : HandleTables} (h : sameKeys st) (invoke : Invoker)
    (now : Int) (freshId : String) (id : String) (args : List JSValue) (fid : Nat) :
    sameKeys (providerInvokeFn invoke now freshId st id args fid).1 := by
  unfold providerInvokeFn
  cases hinv : invoke fid args with
  | returns result => exact serializeResult_sameKeys h now freshId result
  | throws e => exact h

/-- `providerInvoke` preserves key-sequence equality. -/
theorem providerInvoke_sameKeys {st : HandleTables} (h : sameKeys st) (invoke : Invoker)
    (now : Int) (freshId : String) (id method : String) (args : List JSValue)
    (ctx : JSValue) :
    sameKeys (providerInvoke invoke now freshId st id method args ctx).1 := by
  unfold providerInvoke
  cases hfn : resolveFn ctx method with
  | func fid => exact providerInvokeFn_sameKeys h invoke now freshId id args fid
  | undef => exact h
  | null => exact h
  | bool b => exact h
  | num n => exact h
  | str s => exact h
  | bigint n => exact h
  | exotic t w j => exact h
  | obj fs => exact h
  | arr es => exact h

/-- `providerCall` preserves key-sequence equality. -/
theorem providerCall_sameKeys {st : HandleTables} (h : sameKeys st) (api : JSValue)
    (invoke : Invoker) (now : Int) (freshId : String) (id method : String)
    (args : List JSValue) (handle? : Option String) :
    sameKeys (providerCall api invoke now freshId st id method args handle?).1 := by
  cases handle? with
  | none => exact providerInvoke_sameKeys h invoke now freshId id method args api
  | some hid =>
    simp only [providerCall]
    by_cases hne : hid ≠ ""
    · rw [if_pos hne]
      cases hctx : lookupHandle st hid with
      | none => exact h
      | some ctx =>
        exact providerInvoke_sameKeys (refreshMeta_sameKeys h hid now) invoke now freshId
          id method args ctx
    · rw [if_neg hne]
      exact providerInvoke_sameKeys h invoke now freshId id method args api

/-- `providerOnMsg` preserves key-sequence equality. -/
theorem providerOnMsg_sameKeys {st : HandleTables} (h : sameKeys st) (api : JSValue)
    (invoke : Invoker) (now : Int) (freshId : String) (msg : WireMsg) :
    sameKeys (providerOnMsg api invoke now freshId st msg).1 := by
  cases msg with
  | GET => exact h
  | CALL id method args handle? =>
    exact providerCall_sameKeys h api invoke now freshId id method args handle?
  | RELEASE_HANDLE hid =>
    simp only [providerOnMsg]
    by_cases hne : hid ≠ ""
    · rw [if_pos hne]; exact deleteHandle_sameKeys h hid
    · rw [if_neg hne]; exact h
  | READY values functions => exact h
  | RESULT id result => exact h
  | ERROR id error => exact h
  | INIT_ERROR error => exact h

/-- The envelope layer preserves key-sequence equality. -/
theorem providerOnEnvelope_sameKeys {st : HandleTables} (h : sameKeys st) (api : JSValue)
    (name : String) (invoke : Invoker) (now : Int) (freshId : String) (env : Envelope)
    (source : Option Nat) :
    sameKeys (providerOnEnvelope api name invoke now freshId st env source).1 := by
  unfold providerOnEnvelope
  by_cases hb : env.rpcBrand = false ∨ env.name ≠ name
  · rw [if_pos hb]; exact h
  · rw [if_neg hb]
    cases source with
    | none => exact h
    | some s => exact providerOnMsg_sameKeys h api invoke now freshId env.msg

/-- The listener body preserves key-sequence equality. -/
theorem providerHandleData_sameKeys {st : HandleTables} (h : sameKeys st) (api : JSValue)
    (name : String) (invoke : Invoker) (now : Int) (freshId : String) (ev : MessageEvent) :
    sameKeys (providerHandleData api name invoke now freshId st ev).1 := by
  unfold providerHandleData
  cases hd : ev.data with
  | none => exact h
  | some env => exact providerOnEnvelope_sameKeys h api name invoke now freshId env ev.source

/-- Whether the event is a RELEASE_HANDLE of `id` on some channel. -/
def isReleaseOf (ev : MessageEvent) (id : String) : Bool :=
  match ev.data with
  | some env =>
    match env.msg with
    | .RELEASE_HANDLE h => h == id
    | _ => false
  | none => false

/-- `serializeResult` never drops a registered handle. -/
theorem serializeResult_keeps {st : HandleTables} {id : String}
    (h : id ∈ st.handles.map (·.1)) (now : Int) (newId : String) (result : JSValue) :
    id ∈ (serializeResult st now newId result).2.handles.map (·.1) := by
  unfold serializeResult
  by_cases hf : hasFunctions result
  · rw [if_pos hf]
    by_cases hfn : result.isFunc
    · rw [if_pos hfn]
      show id ∈ (st.handles ++ [(newId, result)]).map (·.1)
      rw [List.map_append]
      exact List.mem_append_left _ h
    · rw [if_neg hfn]
      show id ∈ (st.handles ++ [(newId, result)]).map (·.1)
      rw [List.map_append]
      exact List.mem_append_left _ h
  · rw [if_neg hf]; exact h

/-- `providerInvokeFn` never drops a registered handle. -/
theorem providerInvokeFn_keeps {st : HandleTables} {id : String}
    (h : id ∈ st.handles.map (·.1)) (invoke : Invoker) (now : Int) (freshId : String)
    (callId : String) (args : List JSValue) (fid : Nat) :
    id ∈ (providerInvokeFn invoke now freshId st callId args fid).1.handles.map (·.1) := by
  unfold providerInvokeFn
  cases hinv : invoke fid args with
  | returns result => exact serializeResult_keeps h now freshId result
  | throws e => exact h

/-- `providerInvoke` never drops a registered handle. -/
theorem providerInvoke_keeps {st : HandleTables} {id : String}
    (h : id ∈ st.handles.map (·.1)) (invoke : Invoker) (now : Int) (freshId : String)
    (callId method : String) (args : List JSValue) (ctx : JSValue) :
    id ∈ (providerInvoke invoke now freshId st callId method args ctx).1.handles.map (·.1) := by
  unfold providerInvoke
  cases hfn : resolveFn ctx method with
  | func fid => exact providerInvokeFn_keeps h invoke now freshId callId args fid
  | undef => exact h
  | null => exact h
  | bool b => exact h
  | num n => exact h
  | str s => exact h
  | bigint n => exact h
  | exotic t w j => exact h
  | obj fs => exact h
  | arr es => exact h

/-- `providerCall` never drops a registered handle (`refreshMeta` touches
only the meta table). -/
theorem providerCall_keeps {st : HandleTables} {id : String}
    (h : id ∈ st.handles.map (·.1)) (api : JSValue) (invoke : Invoker) (now : Int)
    (freshId : String) (callId method : String) (args : List JSValue)
    (handle? : Option String) :
    id ∈ (providerCall api invoke now freshId st callId method args handle?).1.handles.map
      (·.1) := by
  cases handle? with
  | none => exact providerInvoke_keeps h invoke now freshId callId method args api
  | some hid =>
    simp only [providerCall]
    by_cases hne : hid ≠ ""
    · rw [if_pos hne]
      cases hctx : lookupHandle st hid with
      | none => exact h
      | some ctx =>
        exact @providerInvoke_keeps (refreshMeta st hid now) id h invoke now freshId
          callId method args ctx
    · rw [if_neg hne]
      exact providerInvoke_keeps h invoke now freshId callId method args api

/-- `providerOnMsg` never drops a handle except on a RELEASE_HANDLE of its
id. -/
theorem providerOnMsg_keeps {st : HandleTables} {id : String}
    (h : id ∈ st.handles.map (·.1)) (api : JSValue) (invoke : Invoker) (now : Int)
    (freshId : String) (msg : WireMsg)
    (hrel : ∀ hid : String, msg = .RELEASE_HANDLE hid → hid ≠ id) :
    id ∈ (providerOnMsg api invoke now freshId st msg).1.handles.map (·.1) := by
  cases msg with
  | GET => exact h
  | CALL callId method args handle? =>
    exact providerCall_keeps h api invoke now freshId callId method args handle?
  | RELEASE_HANDLE hid =>
    have hne : hid ≠ id := hrel hid rfl
    simp only [providerOnMsg]
    by_cases hempty : hid ≠ ""
    · rw [if_pos hempty]
      show id ∈ (st.handles.filter (fun e => ¬ e.1 = hid)).map (·.1)
      rw [map_fst_filter st.handles (fun k => decide (¬ k = hid))]
      exact List.mem_filter.mpr ⟨h, by simp [Ne.symm hne]⟩
    · rw [if_neg hempty]; exact h
  | READY values functions => exact h
  | RESULT rid result => exact h
  | ERROR rid error => exact h
  | INIT_ERROR error => exact h

/-- The envelope layer never drops a handle except on a RELEASE_HANDLE of
its id. -/
theorem providerOnEnvelope_keeps {st : HandleTables} {id : String}
    (h : id ∈ st.handles.map (·.1)) (api : JSValue) (name : String) (invoke : Invoker)
    (now : Int) (freshId : String) (env : Envelope) (source : Option Nat)
    (hrel : ∀ hid : String, env.msg = .RELEASE_HANDLE hid → hid ≠ id) :
    id ∈ (providerOnEnvelope api name invoke now freshId st env source).1.handles.map
      (·.1) := by
  unfold providerOnEnvelope
  by_cases hb : env.rpcBrand = false ∨ env.name ≠ name
  · rw [if_pos hb]; exact h
  · rw [if_neg hb]
    cases source with
    | none => exact h
    | some s => exact providerOnMsg_keeps h api invoke now freshId env.msg hrel

/-- The full step never drops a handle except on a RELEASE_HANDLE of its
id. -/
theorem providerStep_keeps {st : HandleTables} {id : String}
    (h : id ∈ st.handles.map (·.1)) (allowedOrigins : Option OriginRule) (api : JSValue)
    (name : String) (invoke : Invoker) (now : Int) (freshId : String) (ev : MessageEvent)
    (hrel : isReleaseOf ev id = false) :
    id ∈ (providerStep allowedOrigins api name invoke now freshId st ev).1.handles.map
      (·.1) := by
  unfold providerStep
  by_cases ha : isOriginAllowed allowedOrigins ev.origin = true
  · rw [if_pos ha]
    unfold providerHandleData
    cases hd : ev.data with
    | none => exact h
    | some env =>
      refine providerOnEnvelope_keeps h api name invoke now freshId env ev.source ?_
      intro hid hmsg heq
      subst heq
      unfold isReleaseOf at hrel
      rw [hd] at hrel
      simp [hmsg] at hrel
  · rw [if_neg ha]; exact h

/-- Expiry of a given handle at a sweep tick is exactly `now - lastUsed >
ttl` (keys are distinct in a Map). -/
theorem sweepTick_mem_iff (ttl now : Int) (st : HandleTables) (id : String) (lu : Int)
    (hnd : (st.handleMeta.map (·.1)).Nodup) (hmem : (id, lu) ∈ st.handleMeta) :
    (id ∈ (sweepTick ttl now st).handleMeta.map (·.1) ↔ ¬ (now - lu > ttl)) := by
  have hexp : id ∈ expiredIds ttl now st ↔ now - lu > ttl := by
    constructor
    · intro hin
      rcases List.mem_map.mp hin with ⟨e, hef, he1⟩
      rcases List.mem_filter.mp hef with ⟨hemem, hpred⟩
      have : e = (id, e.2) := by rw [← he1]
      rw [this] at hemem
      have := eq_of_mem_of_nodup_keys hnd hmem hemem
      simp only [decide_eq_true_eq] at hpred
      rw [this]
      exact hpred
    · intro hgt
      exact List.mem_map.mpr ⟨(id, lu), List.mem_filter.mpr ⟨hmem, by simpa using hgt⟩, rfl⟩
  have hk : id ∈ st.handleMeta.map (·.1) := List.mem_map.mpr ⟨(id, lu), hmem, rfl⟩
  show id ∈ (st.handleMeta.filter (fun e => ¬ (expiredIds ttl now st).contains e.1)).map
      (·.1) ↔ _
  rw [map_fst_filter st.handleMeta (fun k => decide (¬ (expiredIds ttl now st).contains k
    = true))]
  rw [List.mem_filter]
  simp only [decide_eq_true_eq, List.elem_iff, hexp, hk, true_and]

/-! ### Claim theorems for the provider -/

/-- C3: result serialisation registers a handle (fresh id appended to both
tables with `lastUsed = now`) and emits a handle payload if and only if the
result is a function, or a non-pass-through object at or under which a
function is reachable; otherwise the raw value is emitted and the tables
are untouched. -/
theorem serializeResult_handle_iff (st : HandleTables) (now : Int) (newId : String)
    (result : JSValue) :
    if result.isFunc ||
        (result.isObject && !result.isStructuredClonePassThrough
          && containsFunction result) then
      (serializeResult st now newId result).1.isHandle = true
      ∧ (serializeResult st now newId result).2.handles = st.handles ++ [(newId, result)]
      ∧ (serializeResult st now newId result).2.handleMeta = st.handleMeta ++ [(newId, now)]
    else serializeResult st now newId result = (.raw result, st) := by
  rw [← hasFunctions_iff]
  by_cases hf : hasFunctions result
  · rw [if_pos hf]
    unfold serializeResult
    by_cases hfn : result.isFunc
    · rw [if_pos hf, if_pos hfn]
      exact ⟨rfl, rfl, rfl⟩
    · rw [if_pos hf, if_neg hfn]
      exact ⟨rfl, rfl, rfl⟩
  · rw [if_neg hf]
    unfold serializeResult
    rw [if_neg hf]

/-- C9: every provider operation keeps the two handle maps on exactly the
same key set — handle creation at result serialisation appends the fresh id
to both, RELEASE_HANDLE deletes from both, a sweep tick deletes each
expired id from both — so after any step an id is in `handles` iff it is in
`handleMeta`. -/
theorem handle_tables_same_keys (allowedOrigins : Option OriginRule) (api : JSValue)
    (name : String) (invoke : Invoker) (now ttl sweepNow : Int) (freshId : String)
    (st : HandleTables) (ev : MessageEvent) (h : sameKeys st) :
    sameKeys (providerStep allowedOrigins api name invoke now freshId st ev).1
    ∧ sameKeys (sweepTick ttl sweepNow st)
    ∧ (∀ id,
        id ∈ (providerStep allowedOrigins api name invoke now freshId st ev).1.handles.map
          (·.1)
        ↔ id ∈ (providerStep allowedOrigins api name invoke now freshId
            st ev).1.handleMeta.map (·.1)) := by
  have hstep : sameKeys (providerStep allowedOrigins api name invoke now freshId st ev).1 := by
    unfold providerStep
    by_cases ha : isOriginAllowed allowedOrigins ev.origin = true
    · rw [if_pos ha]
      exact providerHandleData_sameKeys h api name invoke now freshId ev
    · rw [if_neg ha]
      exact h
  exact ⟨hstep, sweepTick_sameKeys h ttl sweepNow, fun id => by rw [hstep]⟩

/-- C9 witness: a concrete GET step and the key-set equivalence at a
populated table. -/
theorem handle_tables_same_keys_witness :
    sameKeys (providerStep none (.obj []) "n" (fun _ _ => .returns .undef) 0 "f0"
      ⟨[("h1", .num 1)], [("h1", 0)]⟩
      ⟨some ⟨true, "n", .GET⟩, "https://app.example", some 0⟩).1
    ∧ sameKeys (sweepTick 10 100 ⟨[("h1", .num 1)], [("h1", 0)]⟩)
    ∧ (∀ id,
        id ∈ (providerStep none (.obj []) "n" (fun _ _ => .returns .undef) 0 "f0"
          ⟨[("h1", .num 1)], [("h1", 0)]⟩
          ⟨some ⟨true, "n", .GET⟩, "https://app.example", some 0⟩).1.handles.map (·.1)
        ↔ id ∈ (providerStep none (.obj []) "n" (fun _ _ => .returns .undef) 0 "f0"
          ⟨[("h1", .num 1)], [("h1", 0)]⟩
          ⟨some ⟨true, "n", .GET⟩, "https://app.example", some 0⟩).1.handleMeta.map (·.1)) :=
  handle_tables_same_keys none (.obj []) "n" (fun _ _ => .returns .undef) 0 10 100 "f0"
    ⟨[("h1", .num 1)], [("h1", 0)]⟩
    ⟨some ⟨true, "n", .GET⟩, "https://app.example", some 0⟩ rfl

/-- C5: a sweep tick removes a handle exactly when its idle time
`now − lastUsed` exceeds `handleTtlMs`; a zero configured TTL or sweep
interval disables the sweeper timer; and no listener step removes a handle
other than a RELEASE_HANDLE of its id — so with the sweeper disabled
handles never expire. -/
theorem ttl_sweeper_spec :
    (∀ (ttl now : Int) (st : HandleTables) (id : String) (lu : Int),
        (st.handleMeta.map (·.1)).Nodup → (id, lu) ∈ st.handleMeta →
        (id ∈ (sweepTick ttl now st).handleMeta.map (·.1) ↔ ¬ (now - lu > ttl)))
    ∧ (∀ handleTtlMs? sweepIntervalMs? : Option Int,
        handleTtlMs? = some 0 ∨ sweepIntervalMs? = some 0 →
        sweeperEnabled handleTtlMs? sweepIntervalMs? = false)
    ∧ (∀ (allowedOrigins : Option OriginRule) (api : JSValue) (name : String)
        (invoke : Invoker) (now : Int) (freshId : String) (st : HandleTables)
        (ev : MessageEvent) (id : String),
        id ∈ st.handles.map (·.1) → isReleaseOf ev id = false →
        id ∈ (providerStep allowedOrigins api name invoke now freshId
          st ev).1.handles.map (·.1)) := by
  refine ⟨sweepTick_mem_iff, ?_, ?_⟩
  · intro t s h
    rcases h with h | h <;> subst h <;>
      simp [sweeperEnabled, ttlMsOf, sweepMsOf]
  · intro ao api name invoke now freshId st ev id h hrel
    exact providerStep_keeps h ao api name invoke now freshId ev hrel

/-- C5 witness: a populated table at a concrete tick (idle 100 > ttl 10, so
the handle is gone), a zero TTL disabling the sweeper, and a CALL step that
keeps the handle. -/
theorem ttl_sweeper_spec_witness :
    (("h1" ∈ (sweepTick 10 100 ⟨[("h1", .num 1)], [("h1", 0)]⟩).handleMeta.map (·.1))
      ↔ ¬ ((100 : Int) - 0 > 10))
    ∧ sweeperEnabled (some 0) (some 5) = false
    ∧ "h1" ∈ (providerStep none (.obj []) "n" (fun _ _ => .returns .undef) 0 "f0"
        ⟨[("h1", .num 1)], [("h1", 0)]⟩
        ⟨some ⟨true, "n", .GET⟩, "https://app.example", some 0⟩).1.handles.map (·.1) :=
  ⟨ttl_sweeper_spec.1 10 100 ⟨[("h1", .num 1)], [("h1", 0)]⟩ "h1" 0 (by decide) (by decide),
   ttl_sweeper_spec.2.1 (some 0) (some 5) (Or.inl rfl),
   ttl_sweeper_spec.2.2 none (.obj []) "n" (fun _ _ => .returns .undef) 0 "f0"
     ⟨[("h1", .num 1)], [("h1", 0)]⟩
     ⟨some ⟨true, "n", .GET⟩, "https://app.example", some 0⟩ "h1" (by decide) (by decide)⟩

/-- C1: a message whose origin fails the configured allowedOrigins check is
silently dropped — the provider sends no reply and its handle tables are
unchanged; with allowedOrigins absent every origin is accepted and the
listener body runs unchanged. -/
theorem provider_origin_policy :
    (∀ (allowedOrigins : Option OriginRule) (api : JSValue) (name : String)
        (invoke : Invoker) (now : Int) (freshId : String) (st : HandleTables)
        (ev : MessageEvent), isOriginAllowed allowedOrigins ev.origin = false →
        providerStep allowedOrigins api name invoke now freshId st ev = (st, []))
    ∧ (∀ (api : JSValue) (name : String) (invoke : Invoker) (now : Int) (freshId : String)
        (st : HandleTables) (ev : MessageEvent),
        providerStep none api name invoke now freshId st ev
          = providerHandleData api name invoke now freshId st ev) := by
  constructor
  · intro ao api name invoke now freshId st ev h
    unfold providerStep
    rw [if_neg (by simp [h])]
  · intro api name invoke now freshId st ev
    simp [providerStep, isOriginAllowed]

/-- C1 witness: a list policy dropping a foreign origin on a GET (no reply,
no state change), and the absent policy processing the same event. -/
theorem provider_origin_policy_witness :
    providerStep (some (.list ["https://app.example"])) (.obj []) "n"
      (fun _ _ => .returns .undef) 0 "f0" ⟨[], []⟩
      ⟨some ⟨true, "n", .GET⟩, "https://evil.example", some 0⟩ = (⟨[], []⟩, [])
    ∧ providerStep none (.obj []) "n" (fun _ _ => .returns .undef) 0 "f0" ⟨[], []⟩
        ⟨some ⟨true, "n", .GET⟩, "https://any.example", some 0⟩
      = providerHandleData (.obj []) "n" (fun _ _ => .returns .undef) 0 "f0" ⟨[], []⟩
        ⟨some ⟨true, "n", .GET⟩, "https://any.example", some 0⟩ :=
  ⟨provider_origin_policy.1 (some (.list ["https://app.example"])) (.obj []) "n"
      (fun _ _ => .returns .undef) 0 "f0" ⟨[], []⟩
      ⟨some ⟨true, "n", .GET⟩, "https://evil.example", some 0⟩ rfl,
   provider_origin_policy.2 (.obj []) "n" (fun _ _ => .returns .undef) 0 "f0" ⟨[], []⟩
      ⟨some ⟨true, "n", .GET⟩, "https://any.example", some 0⟩⟩

/-! ### Claim theorems: getDeep (C7) and serializeError (C8) -/

/-- C7 counterexample: the provider's inline `getDeep` (CALL handler) has no
empty-path shortcut — on the empty dotted path it reads the `""` property
(`"".split "." = [""]`) and returns `undefined`, not the root. -/
theorem serverGetDeep_empty_path_counterexample :
    serverGetDeep (.obj [("a", .num 1)]) "" = .undef
    ∧ serverGetDeep (.obj [("a", .num 1)]) "" ≠ .obj [("a", .num 1)] := by
  refine ⟨rfl, ?_⟩
  rw [show serverGetDeep (.obj [("a", .num 1)]) "" = JSValue.undef from rfl]
  simp

/-- C7 (amended): the consumer's and shared `getDeep` return the root on the
empty path, return `undefined` as soon as a walked prefix reads
`undefined` (missing intermediate), and index sequences on numeric
segments; the provider's inline `getDeep` lacks the empty-path case but
agrees with the shared one on every nonempty path — and it is only ever
invoked on nonempty parent paths. -/
theorem getDeep_path_semantics :
    (∀ root : JSValue, getDeep root "" = root)
    ∧ (∀ (obj : JSValue) (path : String) (ps qs : List String), path ≠ "" →
        splitPath path = ps ++ qs → getDeepLoop obj ps = .undef →
        getDeep obj path = .undef)
    ∧ (∀ (es : List JSValue) (s : String) (i : Nat), segToNat? s = some i →
        JSValue.getProp (.arr es) s = (es.get? i).getD .undef)
    ∧ (∀ (obj : JSValue) (path : String), path ≠ "" →
        serverGetDeep obj path = getDeep obj path) := by
  refine ⟨fun root => by simp [getDeep], ?_, ?_, ?_⟩
  · intro obj path ps qs hne hsplit hundef
    unfold getDeep
    rw [if_neg hne, hsplit, getDeepLoop_append, hundef, getDeepLoop_undef]
  · intro es s i h
    simp [JSValue.getProp, h]
  · intro obj path hne
    unfold serverGetDeep getDeep
    rw [if_neg hne]

/-- C7 witness: concrete reads for each clause. -/
theorem getDeep_path_semantics_witness :
    getDeep (.num 7) "" = .num 7
    ∧ getDeep (.obj [("a", .obj [])]) "a.b.c" = .undef
    ∧ JSValue.getProp (.arr [.num 3, .num 5]) "1"
        = (([(.num 3 : JSValue), .num 5]).get? 1).getD .undef
    ∧ serverGetDeep (.obj [("a", .num 1)]) "a" = getDeep (.obj [("a", .num 1)]) "a" :=
  ⟨getDeep_path_semantics.1 (.num 7),
   getDeep_path_semantics.2.1 (.obj [("a", .obj [])]) "a.b.c" ["a", "b"] ["c"]
     (by decide) rfl rfl,
   getDeep_path_semantics.2.2.1 [.num 3, .num 5] "1" 1 rfl,
   getDeep_path_semantics.2.2.2 (.obj [("a", .num 1)]) "a" (by decide)⟩

/-- C8 counterexample: a thrown plain object that carries a `message` field
is not an `Error` instance, so `serializeError` JSON-stringifies it instead
of returning the message. -/
theorem serializeError_message_field_counterexample :
    serializeError (.plain (.obj [("message", .str "hi")]))
      = some "\x7b\"message\":\"hi\"\x7d"
    ∧ serializeError (.plain (.obj [("message", .str "hi")])) ≠ some "hi" := by
  exact ⟨rfl, by decide⟩

/-- C8 (amended): `serializeError` returns the message exactly for `Error`
instances (`instanceof Error`, not any value carrying a `message` field);
any other thrown value is JSON-stringified, and when the stringification
throws the string coercion is returned. -/
theorem serializeError_spec :
    (∀ m : String, serializeError (.errorInstance m) = some m)
    ∧ (∀ (v : JSValue) (s : String), jsonStringify v = .ok (some s) →
        serializeError (.plain v) = some s)
    ∧ (∀ v : JSValue, jsonStringify v = .error () →
        serializeError (.plain v) = some (jsToString v)) := by
  refine ⟨fun m => rfl, ?_, ?_⟩
  · intro v s h
    show (match jsonStringify v with
      | Except.ok r => r
      | Except.error _ => some (jsToString v)) = some s
    rw [h]
  · intro v h
    show (match jsonStringify v with
      | Except.ok r => r
      | Except.error _ => some (jsToString v)) = some (jsToString v)
    rw [h]

/-- C8 witness: the repository's own test vectors — an `Error` with message
`"boom"`, a plain object JSON-stringified, and a value whose
stringification throws falling back to string coercion. -/
theorem serializeError_spec_witness :
    serializeError (.errorInstance "boom") = some "boom"
    ∧ serializeError (.plain (.obj [("a", .num 1)])) = some "\x7b\"a\":1\x7d"
    ∧ serializeError (.plain (.bigint 1)) = some (jsToString (.bigint 1)) :=
  ⟨serializeError_spec.1 "boom",
   serializeError_spec.2.1 (.obj [("a", .num 1)]) "\x7b\"a\":1\x7d" rfl,
   serializeError_spec.2.2 (.bigint 1) rfl⟩

/-! ### Materialised trees (claims C2, C6)

`createMaterializedRoot` (src/unnamed/part_002) deep-clones the value
snapshot and then, for every dotted path in the function set, walks/creates
the intermediate nodes and installs a callable at the leaf key.  `MValue` is
the type of the produced trees: the clone image of a `JSValue` plus
installed `callable` leaves.  The source keeps a `WeakMap` from source nodes
to their clones; on identity-free trees the clone of a source node is the
node at the same path of the clone, so the map shortcut of
`ensureTargetForParentPath` and its path-walking fallback coincide and the
walk models both arms. -/

/-- A node of a materialised tree.  `rawFunc` is the image of a function
returned as-is by `cloneNode` (cannot occur in snapshots); `callable m` is
an installed call proxy posting CALL with `method = m`; `arr` additionally
carries the string-keyed properties JS assignment can put on an array. -/
inductive MValue : Type where
  | undef : MValue
  | null : MValue
  | bool (b : Bool) : MValue
  | num (n : Int) : MValue
  | str (s : String) : MValue
  | bigint (n : Int) : MValue
  | rawFunc (fid : Nat) : MValue
  | exotic (tag : String) (isView : Bool) (jsonRepr : String) : MValue
  | obj (fields : List (String × MValue)) : MValue
  | arr (elems : List MValue) (props : List (String × MValue)) : MValue
  | callable (method : String) : MValue
deriving Repr

namespace MValue

/-- `cur !== null && cur !== undefined && typeof cur === 'object'`, the
replace-check of the ensure walk (callables have `typeof 'function'` and
fail it). -/
def isObjectNode : MValue → Bool
  | .obj _ => true
  | .arr _ _ => true
  | .exotic _ _ _ => true
  | _ => false

/-- JS truthiness on materialised nodes. -/
def truthy : MValue → Bool
  | .undef => false
  | .null => false
  | .bool b => b
  | .num n => n != 0
  | .str s => s != ""
  | .bigint n => n != 0
  | _ => true

end MValue

/-- Field lookup (first matching key; `undefined` when absent). -/
def mFieldsGet : List (String × MValue) → String → MValue
  | [], _ => .undef
  | e :: fs, k => if e.1 = k then e.2 else mFieldsGet fs k

/-- JS property assignment on an object: overwrite in place (keeping the
key's position), or append a new key (insertion order). -/
def mFieldsSet : List (String × MValue) → String → MValue → List (String × MValue)
  | [], k, v => [(k, v)]
  | e :: fs, k, v => if e.1 = k then (k, v) :: fs else e :: mFieldsSet fs k v

/-- Element read (`undefined` when out of range). -/
def mElemsGet : List MValue → Nat → MValue
  | [], _ => .undef
  | v :: _, 0 => v
  | _ :: es, n + 1 => mElemsGet es n

/-- JS index assignment on an array: set in place, or extend with
`undefined` holes up to the index. -/
def mElemsSet : List MValue → Nat → MValue → List MValue
  | [], 0, v => [v]
  | [], n + 1, v => .undef :: mElemsSet [] n v
  | _ :: es, 0, v => v :: es
  | e :: es, n + 1, v => e :: mElemsSet es n v

/-- Property read on a materialised node. -/
def mGetProp : MValue → String → MValue
  | .obj fs, p => mFieldsGet fs p
  | .arr es props, p =>
    match segToNat? p with
    | some i => mElemsGet es i
    | none => mFieldsGet props p
  | _, _ => (.undef)

/-- The `getDeep` walk over a materialised tree (segment list form). -/
def mGetDeepLoop : MValue → List String → MValue
  | cur, [] => cur
  | cur, p :: ps => if cur.truthy then mGetDeepLoop (mGetProp cur p) ps else .undef

mutual
/-- `cloneNode(src)`: primitives and functions returned as-is, pass-through
builtins reused, other exotic host objects clone to `{}` (they enumerate no
keys), arrays and plain objects clone recursively. -/
def mClone : JSValue → MValue
  | .undef => .undef
  | .null => .null
  | .bool b => .bool b
  | .num n => .num n
  | .str s => .str s
  | .bigint n => .bigint n
  | .func fid => .rawFunc fid
  | .exotic t w j =>
    if isStructuredClonePassThrough (.exotic t w j) then .exotic t w j else .obj []
  | .obj fs => .obj (mCloneFields fs)
  | .arr es => .arr (mCloneElems es) []

/-- Field clone of `cloneNode`. -/
def mCloneFields : List (String × JSValue) → List (String × MValue)
  | [] => []
  | (k, v) :: fs => (k, mClone v) :: mCloneFields fs

/-- Element clone of `cloneNode`. -/
def mCloneElems : List JSValue → List MValue
  | [] => []
  | v :: es => mClone v :: mCloneElems es
end

/-- One step of `getDeep(values, curPath)` along the walk: the nonempty-path
`getDeep` composes segmentwise (`getDeepLoop_append`), so the source cursor
advances by one property read guarded by truthiness. -/
def srcStep (srcCur : JSValue) (seg : String) : JSValue :=
  if srcCur.truthy then srcCur.getProp seg else (.undef)

/-- Set a leaf property (the `parentObj[leafKey] = proxy` write); on a
non-object host value the assignment is lost (unreachable for snapshot
function paths). -/
def mSetLeaf : MValue → String → MValue → MValue
  | .obj fs, k, v => .obj (mFieldsSet fs k v)
  | .arr es props, k, v =>
    (match segToNat? k with
     | some i => .arr (mElemsSet es i v) props
     | none => .arr es (mFieldsSet props k v))
  | cur, _, _ => cur

/-- `ensureTargetForParentPath` fused with the leaf installation: walk the
destination tree along the parent segments — descending into object
children, replacing non-object children (`!cur[seg] || typeof cur[seg] !==
'object'`) with `[]`/`{}` according to the source value at that path in the
object case and with `{}` under arrays — then set the leaf key to the
callable.  Walking onto a non-object host node loses the write (the source
would set a property on a pass-through builtin; unreachable for snapshot
function paths). -/
def ensureInstall (srcCur : JSValue) (cur : MValue) :
    List String → String → String → MValue
  | [], leafKey, method => mSetLeaf cur leafKey (.callable method)
  | seg :: rest, leafKey, method =>
    match cur with
    | .obj fs =>
      let child := mFieldsGet fs seg
      let nextSrc := srcStep srcCur seg
      let child' := if child.isObjectNode then child
        else (match nextSrc with | .arr _ => .arr [] [] | _ => .obj [])
      .obj (mFieldsSet fs seg (ensureInstall nextSrc child' rest leafKey method))
    | .arr es props =>
      (match segToNat? seg with
       | some i =>
         let child := mElemsGet es i
         let child' := if child.isObjectNode then child else .obj []
         .arr (mElemsSet es i (ensureInstall (srcStep srcCur seg) child' rest leafKey method))
           props
       | none =>
         let child := mFieldsGet props seg
         let child' := if child.isObjectNode then child else .obj []
         .arr es (mFieldsSet props seg (ensureInstall (srcStep srcCur seg) child' rest leafKey
           method)))
    | cur => cur

/-- Install one function path: `method.lastIndexOf('.')` splits the dotted
path into the parent segments and the leaf key. -/
def installMethod (values : JSValue) (root : MValue) (method : String) : MValue :=
  let segs := splitPath method
  ensureInstall values root segs.dropLast ((segs.getLast?).getD "") method

/-- `createMaterializedRoot`: clone the snapshot, then install a callable at
every function path, in function-set insertion order. -/
def materializeRoot (values : JSValue) (fns : List String) : MValue :=
  fns.foldl (fun root method => installMethod values root method) (mClone values)

/-! ### Consumer core (claims C2, C4, C6, C10)

`createIframeRpcClient` / `IframeRpcClient` (src/unnamed/part_002, the
revision carrying `hideStructure` and `allowedOrigins`; the handler logic of
src/packages/iframe-rpc-client is the same minus those options). -/

/-- `releaseOnPageHide` policy values. -/
inductive PageHidePolicy : Type where
  | nonPersisted
  | all
  | off
deriving Repr, DecidableEq

/-- `CreateIframeRpcClientOptions` (shared/types.ts). -/
structure ConsumerOptions where
  timeout : Option Int := none
  gcSweepIntervalMs : Option Int := none
  releaseOnPageHide : Option PageHidePolicy := none
  hideStructure : Option Bool := none
  allowedOrigins : Option OriginRule := none
  targetOrigin : Option String := none

/-- `materializeStructure = options?.hideStructure === true ? false : true`. -/
def materializeStructure (opts : ConsumerOptions) : Bool :=
  match opts.hideStructure with
  | some true => false
  | _ => true

/-- The settled state of the init promise: a promise settles at most once,
so the first READY's root (or the first rejection) is what the caller ever
sees. -/
inductive InitResult : Type where
  | resolvedMat (root : MValue)
  | resolvedLazy
  | rejected (error : Option String)

/-- What `fromResultPayload` hands to the pending resolver: the raw value,
the function-kind callable, or a scoped (lazy or materialised) proxy over
the handle's own snapshot and function set. -/
inductive ConsumedValue : Type where
  | raw (v : JSValue)
  | funcProxy (handleId : String)
  | scopedLazy (handleId : String) (values : JSValue) (functions : List String)
  | scopedMat (handleId : String) (values : JSValue) (functions : List String)

/-- Consumer instance state: the bound peer window and its origin, the
snapshot and function set, the pending-call table (id → opaque resolver
token), the released-handle set, the GC-tracked active-handle ids, the init
promise settlement, and whether the message listener is still attached. -/
structure ConsumerState where
  targetWindow : Option Nat
  serverOrigin : Option String
  values : JSValue
  functionSet : List String
  pending : List (String × Nat)
  released : List String
  activeHandles : List String
  initSettled : Option InitResult
  listenerActive : Bool

/-- The state at construction. -/
def initialConsumerState : ConsumerState :=
  { targetWindow := none, serverOrigin := none, values := .obj [], functionSet := [],
    pending := [], released := [], activeHandles := [], initSettled := none,
    listenerActive := true }

/-- `Set.add` (first insertion keeps its position). -/
def insertNew (l : List String) (x : String) : List String :=
  if l.contains x then l else l ++ [x]

/-- Insert every element in order (`functionSet.clear()` then adds). -/
def insertAll (l : List String) (xs : List String) : List String :=
  xs.foldl insertNew l

/-- `activeHandles.set(id, { weakRef })` when a weak-reference facility
exists. -/
def registerActive (weakRefAvailable : Bool) (st : ConsumerState) (id : String) :
    ConsumerState :=
  if weakRefAvailable then { st with activeHandles := insertNew st.activeHandles id }
  else st

/-- `fromResultPayload(payload)`: a handle payload becomes the function-kind
callable or a scoped (materialised or lazy, per the option) proxy over
`payload.values || {}` and `payload.functions || []`, registered for
GC-tracked release; any other payload is returned as-is. -/
def fromResultPayload (opts : ConsumerOptions) (weakRefAvailable : Bool)
    (st : ConsumerState) (payload : ResultPayload) : ConsumedValue × ConsumerState :=
  match payload with
  | .raw v => (.raw v, st)
  | .handle id kind values? functions? =>
    let vals := match values? with
      | some v => if v.truthy then v else .obj []
      | none => .obj []
    let funcs := functions?.getD []
    match kind with
    | .function => (.funcProxy id, registerActive weakRefAvailable st id)
    | .object =>
      if materializeStructure opts then
        (.scopedMat id vals funcs, registerActive weakRefAvailable st id)
      else (.scopedLazy id vals funcs, registerActive weakRefAvailable st id)

/-- A settlement of a pending call promise. -/
inductive SettleEffect : Type where
  | resolved (tok : Nat) (value : ConsumedValue)
  | rejectedWith (tok : Nat) (error : Option String)

/-- The READY branch of the consumer handler: rebind the peer window, the
server origin (`event.origin || null`), the snapshot (`payload.values ||
{}`), the canonical index (derived from the snapshot) and the function set,
then resolve the init promise with the materialised or lazy root — a later
`resolve` is a no-op on the already-settled promise, so the settlement
keeps its first value. -/
def consumerOnReady (opts : ConsumerOptions) (st : ConsumerState) (origin : String)
    (source : Option Nat) (values : JSValue) (functions : List String) :
    ConsumerState × List SettleEffect :=
  ({ st with
      targetWindow := source,
      serverOrigin := if origin ≠ "" then some origin else none,
      values := if values.truthy then values else .obj [],
      functionSet := insertAll [] functions,
      initSettled := match st.initSettled with
        | some r => some r
        | none => some (if materializeStructure opts then
            .resolvedMat (materializeRoot (if values.truthy then values else .obj [])
              (insertAll [] functions))
          else .resolvedLazy) }, [])

/-- The RESULT branch: correlate on `id`; a miss does nothing, a hit
resolves the entry with `fromResultPayload` and deletes it. -/
def consumerOnResult (opts : ConsumerOptions) (weakRefAvailable : Bool)
    (st : ConsumerState) (id : String) (payload : ResultPayload) :
    ConsumerState × List SettleEffect :=
  match st.pending.find? (fun e => e.1 == id) with
  | none => (st, [])
  | some p =>
    ({ (fromResultPayload opts weakRefAvailable st payload).2 with
        pending := (fromResultPayload opts weakRefAvailable st payload).2.pending.filter
          (fun e => ¬ e.1 = id) },
     [.resolved p.2 (fromResultPayload opts weakRefAvailable st payload).1])

/-- The ERROR branch: correlate on `id`; a miss does nothing, a hit rejects
the entry with the carried error and deletes it. -/
def consumerOnError (st : ConsumerState) (id : String) (err : Option String) :
    ConsumerState × List SettleEffect :=
  match st.pending.find? (fun e => e.1 == id) with
  | none => (st, [])
  | some p =>
    ({ st with pending := st.pending.filter (fun e => ¬ e.1 = id) },
     [.rejectedWith p.2 err])

/-- The INIT_ERROR branch: remove the listener and reject the init promise
(a no-op if it already settled). -/
def consumerOnInitError (st : ConsumerState) (err : Option String) :
    ConsumerState × List SettleEffect :=
  ({ st with
      initSettled := match st.initSettled with
        | some r => some r
        | none => some (.rejected err),
      listenerActive := false }, [])

/-- The message-type dispatch of the consumer handler (src/unnamed/part_002
lines 1092-1139); unknown message types fall through. -/
def consumerOnMsg (opts : ConsumerOptions) (weakRefAvailable : Bool)
    (st : ConsumerState) (origin : String) (source : Option Nat) (msg : WireMsg) :
    ConsumerState × List SettleEffect :=
  match msg with
  | .READY values functions => consumerOnReady opts st origin source values functions
  | .RESULT id payload => consumerOnResult opts weakRefAvailable st id payload
  | .ERROR id err => consumerOnError st id err
  | .INIT_ERROR err => consumerOnInitError st err
  | _ => (st, [])

/-- The envelope checks of the consumer handler: falsy data, wrong brand or
wrong channel name fall through. -/
def consumerOnEnvelope (opts : ConsumerOptions) (weakRefAvailable : Bool) (name : String)
    (st : ConsumerState) (origin : String) (source : Option Nat) (env : Envelope) :
    ConsumerState × List SettleEffect :=
  if env.rpcBrand = false ∨ env.name ≠ name then (st, [])
  else consumerOnMsg opts weakRefAvailable st origin source env.msg

/-- The consumer's message handler: nothing is delivered after the listener
was removed; then the origin gate and the envelope checks run before the
dispatch. -/
def consumerStep (opts : ConsumerOptions) (weakRefAvailable : Bool) (name : String)
    (st : ConsumerState) (ev : MessageEvent) : ConsumerState × List SettleEffect :=
  if st.listenerActive = false then (st, [])
  else if isOriginAllowed opts.allowedOrigins ev.origin = false then (st, [])
  else match ev.data with
  | none => (st, [])
  | some env => consumerOnEnvelope opts weakRefAvailable name st ev.origin ev.source env

/-- `releaseHandle(handleId)`: mark released, drop from the active table,
and post RELEASE_HANDLE when a peer window is bound (send failures are
swallowed). -/
def releaseHandle (name : String) (st : ConsumerState) (handleId : String) :
    ConsumerState × List (Envelope × Nat) :=
  let st' : ConsumerState :=
    { st with
        released := insertNew st.released handleId,
        activeHandles := st.activeHandles.filter (fun x => ¬ x = handleId) }
  match st.targetWindow with
  | none => (st', [])
  | some tw => (st', [(⟨true, name, .RELEASE_HANDLE handleId⟩, tw)])

/-- The outcome of invoking a handle-bound callable on the consumer. -/
inductive CallOutcome : Type where
  | localReject (error : String)
  | posted (env : Envelope) (target : Nat)

/-- The released-handle guard shared by every callable bound to a handle
(`makeHandleFunctionProxy` in the scoped lazy proxy and the materialised
handle, and the function-kind `fn` of `fromResultPayload`): a released id
rejects `"Handle <id> released"` before anything touches the wire; an
unbound peer rejects `"RPC target not ready"`; otherwise the CALL is posted
and a pending entry is recorded under the fresh call id. -/
def handleCallAttempt (name : String) (st : ConsumerState) (handleId method : String)
    (args : List JSValue) (callId : String) (tok : Nat) : CallOutcome × ConsumerState :=
  if st.released.contains handleId then
    (.localReject ("Handle " ++ handleId ++ " released"), st)
  else match st.targetWindow with
  | none => (.localReject "RPC target not ready", st)
  | some tw =>
    (.posted ⟨true, name, .CALL callId method args (some handleId)⟩ tw,
     { st with pending := st.pending ++ [(callId, tok)] })

/-- The WeakRef sweeper loop body over a snapshot of the active table:
already-released ids are dropped from the table; a collected id (its
`deref()` returned null) is released and dropped. -/
def gcSweepGo (name : String) (collected : List String) :
    List String → ConsumerState → List (Envelope × Nat) →
      ConsumerState × List (Envelope × Nat)
  | [], st, msgs => (st, msgs)
  | id :: rest, st, msgs =>
    if st.released.contains id then
      gcSweepGo name collected rest
        { st with activeHandles := st.activeHandles.filter (fun x => ¬ x = id) } msgs
    else if collected.contains id then
      let so := releaseHandle name st id
      gcSweepGo name collected rest
        { so.1 with activeHandles := so.1.activeHandles.filter (fun x => ¬ x = id) }
        (msgs ++ so.2)
    else gcSweepGo name collected rest st msgs

/-- One tick of the WeakRef polling sweeper; `collected` is the set of ids
whose weak reference dereferences to null. -/
def gcSweepTick (name : String) (collected : List String) (st : ConsumerState) :
    ConsumerState × List (Envelope × Nat) :=
  gcSweepGo name collected st.activeHandles st []

/-- `onShutdown` loop: release every active handle not yet released, then
clear the table. -/
def onShutdownGo (name : String) :
    List String → ConsumerState → List (Envelope × Nat) →
      ConsumerState × List (Envelope × Nat)
  | [], st, msgs => ({ st with activeHandles := [] }, msgs)
  | id :: rest, st, msgs =>
    if st.released.contains id then onShutdownGo name rest st msgs
    else
      let so := releaseHandle name st id
      onShutdownGo name rest so.1 (msgs ++ so.2)

/-- `onShutdown` (the `beforeunload` handler and the pagehide release
path). -/
def onShutdown (name : String) (st : ConsumerState) :
    ConsumerState × List (Envelope × Nat) :=
  onShutdownGo name st.activeHandles st []

/-- The `pagehide` handler: `off` ignores; `all` always releases;
`nonPersisted` (the default) releases only on a non-persisted transition. -/
def pagehideHandler (name : String) (policy : PageHidePolicy) (persisted : Bool)
    (st : ConsumerState) : ConsumerState × List (Envelope × Nat) :=
  if policy = .off then (st, [])
  else if policy = .all ∨ (policy = .nonPersisted ∧ persisted = false) then
    onShutdown name st
  else (st, [])

/-! ### Consumer theorems: released handles (C4) -/

/-- `Set.add` contains the added element. -/
theorem insertNew_contains_self (l : List String) (x : String) :
    (insertNew l x).contains x = true := by
  unfold insertNew
  by_cases h : l.contains x
  · rw [if_pos h]; exact h
  · rw [if_neg h]
    exact List.elem_iff.mpr (List.mem_append_right _ (List.mem_singleton.mpr rfl))

/-- `Set.add` keeps every member. -/
theorem insertNew_contains_of (l : List String) (x y : String)
    (h : l.contains y = true) : (insertNew l x).contains y = true := by
  unfold insertNew
  by_cases hc : l.contains x
  · rw [if_pos hc]; exact h
  · rw [if_neg hc]
    exact List.elem_iff.mpr (List.mem_append_left _ (List.elem_iff.mp h))

/-- `releaseHandle` marks the id as released. -/
theorem releaseHandle_marks (name : String) (st : ConsumerState) (handleId : String) :
    (releaseHandle name st handleId).1.released.contains handleId = true := by
  unfold releaseHandle
  cases st.targetWindow <;> exact insertNew_contains_self st.released handleId

/-- `releaseHandle` keeps every released mark. -/
theorem releaseHandle_keeps_marks (name : String) (st : ConsumerState)
    (handleId y : String) (h : st.released.contains y = true) :
    (releaseHandle name st handleId).1.released.contains y = true := by
  unfold releaseHandle
  cases st.targetWindow <;> exact insertNew_contains_of st.released handleId y h

/-- The GC sweeper loop keeps every released mark. -/
theorem gcSweepGo_keeps_marks (name : String) (collected : List String) :
    ∀ (ids : List String) (st : ConsumerState) (msgs : List (Envelope × Nat)) (y : String),
    st.released.contains y = true →
    (gcSweepGo name collected ids st msgs).1.released.contains y = true
  | [], st, msgs, y, h => h
  | id :: rest, st, msgs, y, h => by
    unfold gcSweepGo
    by_cases hr : st.released.contains id
    · rw [if_pos hr]
      exact gcSweepGo_keeps_marks name collected rest _ msgs y h
    · rw [if_neg hr]
      by_cases hc : collected.contains id
      · rw [if_pos hc]
        exact gcSweepGo_keeps_marks name collected rest _ _ y
          (releaseHandle_keeps_marks name st id y h)
      · rw [if_neg hc]
        exact gcSweepGo_keeps_marks name collected rest st msgs y h

/-- The GC sweeper marks every collected id it visits. -/
theorem gcSweepGo_marks (name : String) (collected : List String) :
    ∀ (ids : List String) (st : ConsumerState) (msgs : List (Envelope × Nat)) (id : String),
    id ∈ ids → collected.contains id = true →
    (gcSweepGo name collected ids st msgs).1.released.contains id = true
  | [], _, _, _, hmem, _ => absurd hmem (List.not_mem_nil _)
  | hd :: rest, st, msgs, id, hmem, hc => by
    unfold gcSweepGo
    rcases List.mem_cons.mp hmem with he | hm
    · subst he
      by_cases hr : st.released.contains id
      · rw [if_pos hr]
        exact gcSweepGo_keeps_marks name collected rest _ msgs id hr
      · rw [if_neg hr, if_pos hc]
        exact gcSweepGo_keeps_marks name collected rest _ _ id
          (releaseHandle_marks name st id)
    · by_cases hr : st.released.contains hd
      · rw [if_pos hr]
        exact gcSweepGo_marks name collected rest _ msgs id hm hc
      · rw [if_neg hr]
        by_cases hcd : collected.contains hd
        · rw [if_pos hcd]
          exact gcSweepGo_marks name collected rest _ _ id hm hc
        · rw [if_neg hcd]
          exact gcSweepGo_marks name collected rest st msgs id hm hc

/-- The shutdown loop keeps every released mark. -/
theorem onShutdownGo_keeps_marks (name : String) :
    ∀ (ids : List String) (st : ConsumerState) (msgs : List (Envelope × Nat)) (y : String),
    st.released.contains y = true →
    (onShutdownGo name ids st msgs).1.released.contains y = true
  | [], st, msgs, y, h => h
  | id :: rest, st, msgs, y, h => by
    unfold onShutdownGo
    by_cases hr : st.released.contains id
    · rw [if_pos hr]
      exact onShutdownGo_keeps_marks name rest st msgs y h
    · rw [if_neg hr]
      exact onShutdownGo_keeps_marks name rest _ _ y
        (releaseHandle_keeps_marks name st id y h)

/-- The shutdown loop marks every id it visits. -/
theorem onShutdownGo_marks (name : String) :
    ∀ (ids : List String) (st : ConsumerState) (msgs : List (Envelope × Nat)) (id : String),
    id ∈ ids → (onShutdownGo name ids st msgs).1.released.contains id = true
  | [], _, _, _, hmem => absurd hmem (List.not_mem_nil _)
  | hd :: rest, st, msgs, id, hmem => by
    unfold onShutdownGo
    rcases List.mem_cons.mp hmem with he | hm
    · subst he
      by_cases hr : st.released.contains id
      · rw [if_pos hr]
        exact onShutdownGo_keeps_marks name rest st msgs id hr
      · rw [if_neg hr]
        exact onShutdownGo_keeps_marks name rest _ _ id (releaseHandle_marks name st id)
    · by_cases hr : st.released.contains hd
      · rw [if_pos hr]
        exact onShutdownGo_marks name rest st msgs id hm
      · rw [if_neg hr]
        exact onShutdownGo_marks name rest _ _ id hm

/-- C4: once RELEASE_HANDLE has been issued for a handle id — explicitly via
`__release`, by the GC sweeper on a collected reference, or by the
page-lifecycle release — the id is in the released set, and every
invocation of a callable bound to it short-circuits to the local rejection
`"Handle <id> released"` with the state unchanged: nothing is posted and no
pending entry is created. -/
theorem released_handle_call_spec :
    (∀ (name : String) (st : ConsumerState) (handleId method : String)
        (args : List JSValue) (callId : String) (tok : Nat),
        st.released.contains handleId = true →
        handleCallAttempt name st handleId method args callId tok
          = (.localReject ("Handle " ++ handleId ++ " released"), st))
    ∧ (∀ (name : String) (st : ConsumerState) (handleId : String),
        (releaseHandle name st handleId).1.released.contains handleId = true)
    ∧ (∀ (name : String) (collected : List String) (st : ConsumerState) (id : String),
        id ∈ st.activeHandles → collected.contains id = true →
        (gcSweepTick name collected st).1.released.contains id = true)
    ∧ (∀ (name : String) (persisted : Bool) (st : ConsumerState) (id : String),
        id ∈ st.activeHandles →
        (pagehideHandler name .all persisted st).1.released.contains id = true
        ∧ (pagehideHandler name .nonPersisted false st).1.released.contains id = true) := by
  refine ⟨?_, releaseHandle_marks, ?_, ?_⟩
  · intro name st handleId method args callId tok h
    unfold handleCallAttempt
    rw [if_pos h]
  · intro name collected st id hmem hc
    exact gcSweepGo_marks name collected st.activeHandles st [] id hmem hc
  · intro name persisted st id hmem
    constructor
    · show (pagehideHandler name .all persisted st).1.released.contains id = true
      unfold pagehideHandler
      rw [if_neg (by simp), if_pos (Or.inl rfl)]
      exact onShutdownGo_marks name st.activeHandles st [] id hmem
    · unfold pagehideHandler
      rw [if_neg (by simp), if_pos (Or.inr ⟨rfl, rfl⟩)]
      exact onShutdownGo_marks name st.activeHandles st [] id hmem

/-- C4 witness: a released id `"h1"` rejects locally with the state
unchanged; release marks; a GC tick and a pagehide release mark a live
handle. -/
theorem released_handle_call_spec_witness :
    handleCallAttempt "n"
        { initialConsumerState with targetWindow := some 1, released := ["h1"] }
        "h1" "test" [] "c1" 0
      = (.localReject "Handle h1 released",
         { initialConsumerState with targetWindow := some 1, released := ["h1"] })
    ∧ (releaseHandle "n" { initialConsumerState with targetWindow := some 1 }
        "h2").1.released.contains "h2" = true
    ∧ (gcSweepTick "n" ["h3"]
        { initialConsumerState with targetWindow := some 1, activeHandles := ["h3"] }
        ).1.released.contains "h3" = true
    ∧ (pagehideHandler "n" .nonPersisted false
        { initialConsumerState with targetWindow := some 1, activeHandles := ["h4"] }
        ).1.released.contains "h4" = true := by
  refine ⟨?_, ?_, ?_, ?_⟩
  · have h := released_handle_call_spec.1 "n"
      { initialConsumerState with targetWindow := some 1, released := ["h1"] }
      "h1" "test" [] "c1" 0 (by decide)
    simpa using h
  · exact released_handle_call_spec.2.1 "n"
      { initialConsumerState with targetWindow := some 1 } "h2"
  · exact released_handle_call_spec.2.2.1 "n" ["h3"]
      { initialConsumerState with targetWindow := some 1, activeHandles := ["h3"] }
      "h3" (by decide) (by decide)
  · exact (released_handle_call_spec.2.2.2 "n" false
      { initialConsumerState with targetWindow := some 1, activeHandles := ["h4"] }
      "h4" (by decide)).2

/-! ### Consumer theorems: pending correlation (C10) -/

/-- `pending.get(id)` misses when the id is not a key. -/
theorem find?_key_eq_none {l : List (String × Nat)} {id : String}
    (h : id ∉ l.map (·.1)) : l.find? (fun e => e.1 == id) = none := by
  apply List.find?_eq_none.mpr
  intro x hx hbeq
  exact h (List.mem_map.mpr ⟨x, hx, by simpa using hbeq⟩)

/-- `pending.get(id)` returns the unique entry for a present key. -/
theorem find?_key_of_mem_nodup {l : List (String × Nat)}
    (hnd : (l.map (·.1)).Nodup) {id : String} {tok : Nat} (hmem : (id, tok) ∈ l) :
    l.find? (fun e => e.1 == id) = some (id, tok) := by
  induction l with
  | nil => cases hmem
  | cons e l ih =>
    simp only [List.map_cons, List.nodup_cons] at hnd
    rcases List.mem_cons.mp hmem with he | hm
    · subst he
      rw [List.find?_cons, show (((id, tok) : String × Nat).1 == id) = true from by simp]
    · have hfalse : (e.1 == id) = false := by
        rw [beq_eq_false_iff_ne]
        intro heq
        exact hnd.1 (heq ▸ List.mem_map.mpr ⟨(id, tok), hm, rfl⟩)
      rw [List.find?_cons, hfalse]
      exact ih hnd.2 hm

/-- `fromResultPayload` never touches the pending table (it only registers
active handles). -/
theorem fromResultPayload_pending (opts : ConsumerOptions) (w : Bool)
    (st : ConsumerState) (payload : ResultPayload) :
    (fromResultPayload opts w st payload).2.pending = st.pending := by
  cases payload with
  | raw v => rfl
  | handle id kind values? functions? =>
    cases kind with
    | function =>
      show (registerActive w st id).pending = st.pending
      unfold registerActive
      by_cases hw : w = true
      · rw [if_pos hw]
      · rw [if_neg hw]
    | object =>
      by_cases hm : materializeStructure opts = true
      · show (if materializeStructure opts then _ else _ :
            ConsumedValue × ConsumerState).2.pending = st.pending
        rw [if_pos hm]
        show (registerActive w st id).pending = st.pending
        unfold registerActive
        by_cases hw : w = true
        · rw [if_pos hw]
        · rw [if_neg hw]
      · show (if materializeStructure opts then _ else _ :
            ConsumedValue × ConsumerState).2.pending = st.pending
        rw [if_neg hm]
        show (registerActive w st id).pending = st.pending
        unfold registerActive
        by_cases hw : w = true
        · rw [if_pos hw]
        · rw [if_neg hw]

/-- An admissible event (live listener, allowed origin, branded envelope on
the right channel) reaches the message dispatch. -/
theorem consumerStep_gate (opts : ConsumerOptions) (w : Bool) (name : String)
    (st : ConsumerState) (origin : String) (source : Option Nat) (msg : WireMsg)
    (hl : st.listenerActive = true) (ha : isOriginAllowed opts.allowedOrigins origin = true) :
    consumerStep opts w name st ⟨some ⟨true, name, msg⟩, origin, source⟩
      = consumerOnMsg opts w st origin source msg := by
  unfold consumerStep
  rw [if_neg (by simp [hl]), if_neg (by simp [ha])]
  show consumerOnEnvelope opts w name st origin source ⟨true, name, msg⟩
    = consumerOnMsg opts w st origin source msg
  unfold consumerOnEnvelope
  rw [if_neg (by simp)]

/-- C10: a RESULT or ERROR whose correlation id has no pending entry leaves
the whole consumer state unchanged and settles nothing; a matching id
settles exactly its own entry (resolving RESULT through
`fromResultPayload`, rejecting ERROR) and deletes it, and every other
pending entry is untouched. -/
theorem pending_id_correlation :
    (∀ (opts : ConsumerOptions) (w : Bool) (name : String) (st : ConsumerState)
        (origin : String) (source : Option Nat) (id : String) (payload : ResultPayload),
        id ∉ st.pending.map (·.1) →
        consumerStep opts w name st ⟨some ⟨true, name, .RESULT id payload⟩, origin, source⟩
          = (st, []))
    ∧ (∀ (opts : ConsumerOptions) (w : Bool) (name : String) (st : ConsumerState)
        (origin : String) (source : Option Nat) (id : String) (err : Option String),
        id ∉ st.pending.map (·.1) →
        consumerStep opts w name st ⟨some ⟨true, name, .ERROR id err⟩, origin, source⟩
          = (st, []))
    ∧ (∀ (opts : ConsumerOptions) (w : Bool) (name : String) (st : ConsumerState)
        (origin : String) (source : Option Nat) (id : String) (payload : ResultPayload)
        (tok : Nat),
        st.listenerActive = true → isOriginAllowed opts.allowedOrigins origin = true →
        (st.pending.map (·.1)).Nodup → (id, tok) ∈ st.pending →
        consumerStep opts w name st ⟨some ⟨true, name, .RESULT id payload⟩, origin, source⟩
          = ({ (fromResultPayload opts w st payload).2 with
                pending := st.pending.filter (fun e => ¬ e.1 = id) },
             [.resolved tok (fromResultPayload opts w st payload).1])
        ∧ (∀ (id' : String) (tok' : Nat), ¬ id' = id →
            (((id', tok') ∈ (consumerStep opts w name st
                ⟨some ⟨true, name, .RESULT id payload⟩, origin, source⟩).1.pending)
              ↔ (id', tok') ∈ st.pending)))
    ∧ (∀ (opts : ConsumerOptions) (w : Bool) (name : String) (st : ConsumerState)
        (origin : String) (source : Option Nat) (id : String) (err : Option String)
        (tok : Nat),
        st.listenerActive = true → isOriginAllowed opts.allowedOrigins origin = true →
        (st.pending.map (·.1)).Nodup → (id, tok) ∈ st.pending →
        consumerStep opts w name st ⟨some ⟨true, name, .ERROR id err⟩, origin, source⟩
          = ({ st with pending := st.pending.filter (fun e => ¬ e.1 = id) },
             [.rejectedWith tok err])) := by
  have hresult : ∀ (opts : ConsumerOptions) (w : Bool) (st : ConsumerState)
      (id : String) (payload : ResultPayload) (tok : Nat),
      (st.pending.map (·.1)).Nodup → (id, tok) ∈ st.pending →
      consumerOnResult opts w st id payload
        = ({ (fromResultPayload opts w st payload).2 with
              pending := st.pending.filter (fun e => ¬ e.1 = id) },
           [.resolved tok (fromResultPayload opts w st payload).1]) := by
    intro opts w st id payload tok hnd hmem
    unfold consumerOnResult
    rw [find?_key_of_mem_nodup hnd hmem, fromResultPayload_pending opts w st payload]
  refine ⟨?_, ?_, ?_, ?_⟩
  · intro opts w name st origin source id payload hnot
    unfold consumerStep
    by_cases hl : st.listenerActive = false
    · rw [if_pos hl]
    · rw [if_neg hl]
      by_cases ha : isOriginAllowed opts.allowedOrigins origin = false
      · rw [if_pos ha]
      · rw [if_neg ha]
        show consumerOnEnvelope opts w name st origin source
          ⟨true, name, .RESULT id payload⟩ = (st, [])
        unfold consumerOnEnvelope
        rw [if_neg (by simp)]
        show consumerOnResult opts w st id payload = (st, [])
        unfold consumerOnResult
        rw [find?_key_eq_none hnot]
  · intro opts w name st origin source id err hnot
    unfold consumerStep
    by_cases hl : st.listenerActive = false
    · rw [if_pos hl]
    · rw [if_neg hl]
      by_cases ha : isOriginAllowed opts.allowedOrigins origin = false
      · rw [if_pos ha]
      · rw [if_neg ha]
        show consumerOnEnvelope opts w name st origin source
          ⟨true, name, .ERROR id err⟩ = (st, [])
        unfold consumerOnEnvelope
        rw [if_neg (by simp)]
        show consumerOnError st id err = (st, [])
        unfold consumerOnError
        rw [find?_key_eq_none hnot]
  · intro opts w name st origin source id payload tok hl ha hnd hmem
    have hmain : consumerStep opts w name st
        ⟨some ⟨true, name, .RESULT id payload⟩, origin, source⟩
        = ({ (fromResultPayload opts w st payload).2 with
              pending := st.pending.filter (fun e => ¬ e.1 = id) },
           [.resolved tok (fromResultPayload opts w st payload).1]) := by
      rw [consumerStep_gate opts w name st origin source (.RESULT id payload) hl ha]
      show consumerOnResult opts w st id payload = _
      exact hresult opts w st id payload tok hnd hmem
    refine ⟨hmain, ?_⟩
    intro id' tok' hne
    rw [hmain]
    show ((id', tok') ∈ st.pending.filter (fun e => ¬ e.1 = id)) ↔ (id', tok') ∈ st.pending
    constructor
    · intro hmemf
      exact (List.mem_filter.mp hmemf).1
    · intro hmem'
      exact List.mem_filter.mpr ⟨hmem', by simpa using hne⟩
  · intro opts w name st origin source id err tok hl ha hnd hmem
    rw [consumerStep_gate opts w name st origin source (.ERROR id err) hl ha]
    show consumerOnError st id err = _
    unfold consumerOnError
    rw [find?_key_of_mem_nodup hnd hmem]

/-- C10 witness: at a pending table `[("c1", 0), ("c2", 1)]`, an unknown id
changes nothing; the matching id `"c1"` settles token 0, deletes its entry
and keeps `("c2", 1)`. -/
theorem pending_id_correlation_witness :
    consumerStep {} true "n"
        { initialConsumerState with pending := [("c1", 0), ("c2", 1)] }
        ⟨some ⟨true, "n", .RESULT "zz" (.raw (.num 3))⟩, "https://o.example", some 1⟩
      = ({ initialConsumerState with pending := [("c1", 0), ("c2", 1)] }, [])
    ∧ consumerStep {} true "n"
        { initialConsumerState with pending := [("c1", 0), ("c2", 1)] }
        ⟨some ⟨true, "n", .ERROR "zz" (some "boom")⟩, "https://o.example", some 1⟩
      = ({ initialConsumerState with pending := [("c1", 0), ("c2", 1)] }, [])
    ∧ consumerStep {} true "n"
        { initialConsumerState with pending := [("c1", 0), ("c2", 1)] }
        ⟨some ⟨true, "n", .RESULT "c1" (.raw (.num 3))⟩, "https://o.example", some 1⟩
      = ({ (fromResultPayload {} true
              { initialConsumerState with pending := [("c1", 0), ("c2", 1)] }
              (.raw (.num 3))).2 with
            pending := [("c1", 0), ("c2", 1)].filter (fun e => ¬ e.1 = "c1") },
         [.resolved 0 (fromResultPayload {} true
            { initialConsumerState with pending := [("c1", 0), ("c2", 1)] }
            (.raw (.num 3))).1])
    ∧ (("c2", 1) ∈ (consumerStep {} true "n"
        { initialConsumerState with pending := [("c1", 0), ("c2", 1)] }
        ⟨some ⟨true, "n", .RESULT "c1" (.raw (.num 3))⟩, "https://o.example", some 1⟩
        ).1.pending ↔ ("c2", 1) ∈
          ([("c1", 0), ("c2", 1)] : List (String × Nat))) :=
  ⟨pending_id_correlation.1 {} true "n" _ "https://o.example" (some 1) "zz"
      (.raw (.num 3)) (by decide),
   pending_id_correlation.2.1 {} true "n" _ "https://o.example" (some 1) "zz"
      (some "boom") (by decide),
   (pending_id_correlation.2.2.1 {} true "n" _ "https://o.example" (some 1) "c1"
      (.raw (.num 3)) 0 rfl rfl (by decide) (by decide)).1,
   (pending_id_correlation.2.2.1 {} true "n" _ "https://o.example" (some 1) "c1"
      (.raw (.num 3)) 0 rfl rfl (by decide) (by decide)).2 "c2" 1 (by decide)⟩

/-! ### Consumer theorems: READY handling (C2) -/

/-- A consumer configured for the lazy (non-materialised) proxy. -/
def lazyOpts : ConsumerOptions := { hideStructure := some true }

/-- A first READY, from window 1. -/
def readyEventA : MessageEvent :=
  ⟨some ⟨true, "n", .READY (.obj [("a", .num 1)]) ["f"]⟩, "https://one.example", some 1⟩

/-- A second READY, from window 2, with a different snapshot and function
set. -/
def readyEventB : MessageEvent :=
  ⟨some ⟨true, "n", .READY (.obj [("b", .num 2)]) ["g"]⟩, "https://two.example", some 2⟩

/-- C2 counterexample: the READY branch has no already-bound guard — a
second READY overwrites the target window and function set recorded at the
first one, so they do not remain those of the first READY. -/
theorem ready_first_wins_counterexample :
    ((consumerStep lazyOpts true "n"
        (consumerStep lazyOpts true "n" initialConsumerState readyEventA).1
        readyEventB).1.functionSet = ["g"])
    ∧ ((consumerStep lazyOpts true "n" initialConsumerState readyEventA).1.functionSet
        = ["f"])
    ∧ ¬ ((consumerStep lazyOpts true "n"
          (consumerStep lazyOpts true "n" initialConsumerState readyEventA).1
          readyEventB).1.functionSet
        = (consumerStep lazyOpts true "n" initialConsumerState readyEventA).1.functionSet)
    ∧ ((consumerStep lazyOpts true "n"
        (consumerStep lazyOpts true "n" initialConsumerState readyEventA).1
        readyEventB).1.targetWindow = some 2)
    ∧ ((consumerStep lazyOpts true "n" initialConsumerState readyEventA).1.targetWindow
        = some 1) := by
  refine ⟨rfl, rfl, ?_, rfl, rfl⟩
  intro h
  rw [show (consumerStep lazyOpts true "n"
      (consumerStep lazyOpts true "n" initialConsumerState readyEventA).1
      readyEventB).1.functionSet = ["g"] from rfl,
    show (consumerStep lazyOpts true "n" initialConsumerState
      readyEventA).1.functionSet = ["f"] from rfl] at h
  exact absurd h (by decide)

/-- C2 (amended): the READY branch is last-wins for the consumer's binding
state — each admissible READY rebinds the target window, snapshot, derived
canonical index and function set to its own payload — while the init
promise keeps the settlement of the first READY (a later `resolve` is a
no-op), so the root handed to the caller is the one built at the first
READY. -/
theorem ready_last_wins_rebinding (opts : ConsumerOptions) (w : Bool) (name : String)
    (st : ConsumerState) (origin : String) (source : Option Nat) (values : JSValue)
    (functions : List String) (r : InitResult)
    (hs : st.initSettled = some r) (hl : st.listenerActive = true)
    (ha : isOriginAllowed opts.allowedOrigins origin = true) :
    (consumerStep opts w name st
        ⟨some ⟨true, name, .READY values functions⟩, origin, source⟩).1.initSettled = some r
    ∧ (consumerStep opts w name st
        ⟨some ⟨true, name, .READY values functions⟩, origin, source⟩).1.targetWindow
      = source
    ∧ (consumerStep opts w name st
        ⟨some ⟨true, name, .READY values functions⟩, origin, source⟩).1.functionSet
      = insertAll [] functions
    ∧ (consumerStep opts w name st
        ⟨some ⟨true, name, .READY values functions⟩, origin, source⟩).1.values
      = (if values.truthy then values else .obj [])
    ∧ (consumerStep opts w name st
        ⟨some ⟨true, name, .READY values functions⟩, origin, source⟩).2 = [] := by
  rw [consumerStep_gate opts w name st origin source (.READY values functions) hl ha]
  refine ⟨?_, rfl, rfl, rfl, rfl⟩
  show (consumerOnReady opts st origin source values functions).1.initSettled = some r
  unfold consumerOnReady
  show (match st.initSettled with
    | some r => some r
    | none => some _) = some r
  rw [hs]

/-- C2 witness: an already-settled consumer processes a READY — the
settlement is unchanged, the binding state is the later READY's. -/
theorem ready_last_wins_rebinding_witness :
    (consumerStep lazyOpts true "n"
        { initialConsumerState with initSettled := some .resolvedLazy, targetWindow := some 1 }
        ⟨some ⟨true, "n", .READY (.obj [("b", .num 2)]) ["g"]⟩, "https://two.example",
          some 2⟩).1.initSettled = some InitResult.resolvedLazy
    ∧ (consumerStep lazyOpts true "n"
        { initialConsumerState with initSettled := some .resolvedLazy, targetWindow := some 1 }
        ⟨some ⟨true, "n", .READY (.obj [("b", .num 2)]) ["g"]⟩, "https://two.example",
          some 2⟩).1.targetWindow = some 2
    ∧ (consumerStep lazyOpts true "n"
        { initialConsumerState with initSettled := some .resolvedLazy, targetWindow := some 1 }
        ⟨some ⟨true, "n", .READY (.obj [("b", .num 2)]) ["g"]⟩, "https://two.example",
          some 2⟩).1.functionSet = insertAll [] ["g"]
    ∧ (consumerStep lazyOpts true "n"
        { initialConsumerState with initSettled := some .resolvedLazy, targetWindow := some 1 }
        ⟨some ⟨true, "n", .READY (.obj [("b", .num 2)]) ["g"]⟩, "https://two.example",
          some 2⟩).1.values
      = (if (JSValue.obj [("b", .num 2)]).truthy then .obj [("b", .num 2)] else .obj [])
    ∧ (consumerStep lazyOpts true "n"
        { initialConsumerState with initSettled := some .resolvedLazy, targetWindow := some 1 }
        ⟨some ⟨true, "n", .READY (.obj [("b", .num 2)]) ["g"]⟩, "https://two.example",
          some 2⟩).2 = [] :=
  ready_last_wins_rebinding lazyOpts true "n"
    { initialConsumerState with initSettled := some .resolvedLazy, targetWindow := some 1 }
    "https://two.example" (some 2) (.obj [("b", .num 2)]) ["g"] .resolvedLazy rfl rfl rfl

/-! ### Materialisation correctness (claim C6) -/

/-- `obj` or `arr` — the nodes a leaf install can write into (`mSetLeaf` is
lost on anything else). -/
def MValue.isPlainNode : MValue → Bool
  | .obj _ => true
  | .arr _ _ => true
  | _ => false

/-- Walking from `undefined` stays `undefined`. -/
theorem mGetDeepLoop_undef (ps : List String) : mGetDeepLoop .undef ps = .undef := by
  cases ps <;> simp [mGetDeepLoop, MValue.truthy]

/-- Setting a key then reading it back gives the value. -/
theorem mFieldsGet_set_self (fs : List (String × MValue)) (k : String) (v : MValue) :
    mFieldsGet (mFieldsSet fs k v) k = v := by
  induction fs with
  | nil => simp [mFieldsSet, mFieldsGet]
  | cons e fs ih =>
    unfold mFieldsSet
    by_cases he : e.1 = k
    · rw [if_pos he]
      simp [mFieldsGet]
    · rw [if_neg he]
      unfold mFieldsGet
      rw [if_neg he]
      exact ih

/-- Setting one key leaves reads of any other key unchanged. -/
theorem mFieldsGet_set_other (fs : List (String × MValue)) (k : String) (v : MValue)
    (k' : String) (h : ¬ k' = k) :
    mFieldsGet (mFieldsSet fs k v) k' = mFieldsGet fs k' := by
  induction fs with
  | nil =>
    unfold mFieldsSet mFieldsGet
    rw [if_neg (fun hh : (k, v).1 = k' => h hh.symm)]
    rfl
  | cons e fs ih =>
    unfold mFieldsSet
    by_cases he : e.1 = k
    · rw [if_pos he]
      unfold mFieldsGet
      rw [if_neg (fun hh : (k, v).1 = k' => h hh.symm),
        if_neg (fun hh : e.1 = k' => h (he ▸ hh).symm)]
    · rw [if_neg he]
      unfold mFieldsGet
      by_cases he' : e.1 = k'
      · rw [if_pos he', if_pos he']
      · rw [if_neg he', if_neg he']
        exact ih

/-- Setting an index then reading it back gives the value (also across the
hole-extension). -/
theorem mElemsGet_set_self (es : List MValue) (i : Nat) (v : MValue) :
    mElemsGet (mElemsSet es i v) i = v := by
  induction es generalizing i with
  | nil =>
    induction i with
    | zero => rfl
    | succ n ih => simpa [mElemsSet, mElemsGet] using ih
  | cons e es ih =>
    cases i with
    | zero => rfl
    | succ n => simpa [mElemsSet, mElemsGet] using ih n

/-- Setting one index leaves reads of any other index unchanged (holes read
as `undefined` either way). -/
theorem mElemsGet_set_other (es : List MValue) (i : Nat) (v : MValue) (i' : Nat)
    (h : ¬ i' = i) : mElemsGet (mElemsSet es i v) i' = mElemsGet es i' := by
  induction es generalizing i i' with
  | nil =>
    induction i generalizing i' with
    | zero =>
      cases i' with
      | zero => exact absurd rfl h
      | succ m => rfl
    | succ n ih =>
      cases i' with
      | zero => rfl
      | succ m => simpa [mElemsSet, mElemsGet] using ih m (fun hh => h (by rw [hh]))
  | cons e es ih =>
    cases i with
    | zero =>
      cases i' with
      | zero => exact absurd rfl h
      | succ m => rfl
    | succ n =>
      cases i' with
      | zero => rfl
      | succ m => simpa [mElemsSet, mElemsGet] using ih n m (fun hh => h (by rw [hh]))

/-- Segment-sequence order: `segPre a b` iff `a` is an initial run of `b`. -/
def segPre : List String → List String → Bool
  | [], _ => true
  | _ :: _, [] => false
  | a :: as, b :: bs => a == b && segPre as bs

/-- Neither path is an initial run of the other (they part ways strictly
before either ends). -/
def bothDiverge (a b : List String) : Bool :=
  !(segPre a b) && !(segPre b a)

/-- A numeric segment in canonical decimal form (`String(i)` produces
these; a non-numeric segment is trivially canonical). -/
def canonicalSeg (s : String) : Bool :=
  match segToNat? s with
  | some i => s == Nat.repr i
  | none => true

/-- Two canonical segments parsing to the same index are equal. -/
theorem canonicalSeg_inj {a b : String} {i : Nat} (ha : canonicalSeg a = true)
    (hb : canonicalSeg b = true) (hpa : segToNat? a = some i)
    (hpb : segToNat? b = some i) : a = b := by
  unfold canonicalSeg at ha hb
  rw [hpa] at ha
  rw [hpb] at hb
  have ha' : a = Nat.repr i := by simpa using ha
  have hb' : b = Nat.repr i := by simpa using hb
  rw [ha', hb']

/-- Whether the ensure walk from `cur` (source cursor `srcCur`) reaches a
plain object/array it can install into: it fails only by landing on a
pass-through host object (or a non-container root). -/
def ensureOk (srcCur : JSValue) (cur : MValue) : List String → Bool
  | [] => cur.isPlainNode
  | seg :: rest =>
    match cur with
    | .obj fs =>
      ensureOk (srcStep srcCur seg)
        (if (mFieldsGet fs seg).isObjectNode then mFieldsGet fs seg
         else match srcStep srcCur seg with
           | .arr _ => .arr [] []
           | _ => .obj []) rest
    | .arr es props =>
      (match segToNat? seg with
       | some i =>
         ensureOk (srcStep srcCur seg)
           (if (mElemsGet es i).isObjectNode then mElemsGet es i else .obj []) rest
       | none =>
         ensureOk (srcStep srcCur seg)
           (if (mFieldsGet props seg).isObjectNode then mFieldsGet props seg else .obj [])
           rest)
    | _ => false

/-- The walk always succeeds from a freshly forced empty container. -/
theorem ensureOk_fresh : ∀ (segs : List String) (srcCur : JSValue) (cont : MValue),
    (cont = .obj [] ∨ cont = .arr [] []) → ensureOk srcCur cont segs = true
  | [], srcCur, cont, h => by rcases h with rfl | rfl <;> rfl
  | seg :: rest, srcCur, cont, h => by
    rcases h with rfl | rfl
    · show ensureOk (srcStep srcCur seg)
        (if (mFieldsGet [] seg).isObjectNode then mFieldsGet [] seg
         else match srcStep srcCur seg with
           | .arr _ => .arr [] []
           | _ => .obj []) rest = true
      cases hsrc : srcStep srcCur seg with
      | arr es => exact ensureOk_fresh rest _ _ (Or.inr rfl)
      | undef => exact ensureOk_fresh rest _ _ (Or.inl rfl)
      | null => exact ensureOk_fresh rest _ _ (Or.inl rfl)
      | bool b => exact ensureOk_fresh rest _ _ (Or.inl rfl)
      | num n => exact ensureOk_fresh rest _ _ (Or.inl rfl)
      | str s => exact ensureOk_fresh rest _ _ (Or.inl rfl)
      | bigint n => exact ensureOk_fresh rest _ _ (Or.inl rfl)
      | func fid => exact ensureOk_fresh rest _ _ (Or.inl rfl)
      | exotic t w j => exact ensureOk_fresh rest _ _ (Or.inl rfl)
      | obj fs => exact ensureOk_fresh rest _ _ (Or.inl rfl)
    · show (match segToNat? seg with
        | some i =>
          ensureOk (srcStep srcCur seg)
            (if (mElemsGet [] i).isObjectNode then mElemsGet [] i else .obj []) rest
        | none =>
          ensureOk (srcStep srcCur seg)
            (if (mFieldsGet [] seg).isObjectNode then mFieldsGet [] seg else .obj [])
            rest) = true
      cases hk : segToNat? seg with
      | some i =>
        cases i <;> exact ensureOk_fresh rest _ _ (Or.inl rfl)
      | none => exact ensureOk_fresh rest _ _ (Or.inl rfl)

/-- Equation lemma: `mSetLeaf` under an array with a numeric key. -/
theorem mSetLeaf_arr_some (es : List MValue) (props : List (String × MValue)) (v : MValue)
    {k : String} {i : Nat} (hk : segToNat? k = some i) :
    mSetLeaf (.arr es props) k v = .arr (mElemsSet es i v) props := by
  show (match segToNat? k with
    | some j => MValue.arr (mElemsSet es j v) props
    | none => MValue.arr es (mFieldsSet props k v)) = _
  rw [hk]

/-- Equation lemma: `mSetLeaf` under an array with a non-numeric key. -/
theorem mSetLeaf_arr_none (es : List MValue) (props : List (String × MValue)) (v : MValue)
    {k : String} (hk : segToNat? k = none) :
    mSetLeaf (.arr es props) k v = .arr es (mFieldsSet props k v) := by
  show (match segToNat? k with
    | some j => MValue.arr (mElemsSet es j v) props
    | none => MValue.arr es (mFieldsSet props k v)) = _
  rw [hk]

/-- Equation lemma: property read on an array node, numeric key. -/
theorem mGetProp_arr_some (es : List MValue) (props : List (String × MValue))
    {k : String} {i : Nat} (hk : segToNat? k = some i) :
    mGetProp (.arr es props) k = mElemsGet es i := by
  show (match segToNat? k with
    | some j => mElemsGet es j
    | none => mFieldsGet props k) = _
  rw [hk]

/-- Equation lemma: property read on an array node, non-numeric key. -/
theorem mGetProp_arr_none (es : List MValue) (props : List (String × MValue))
    {k : String} (hk : segToNat? k = none) :
    mGetProp (.arr es props) k = mFieldsGet props k := by
  show (match segToNat? k with
    | some j => mElemsGet es j
    | none => mFieldsGet props k) = _
  rw [hk]

/-- Equation lemma: one step of the deep walk on an object node. -/
theorem mGetDeepLoop_obj_cons (fs : List (String × MValue)) (p : String)
    (ps : List String) :
    mGetDeepLoop (.obj fs) (p :: ps) = mGetDeepLoop (mFieldsGet fs p) ps := rfl

/-- Equation lemma: one step of the deep walk on an array node. -/
theorem mGetDeepLoop_arr_cons (es : List MValue) (props : List (String × MValue))
    (p : String) (ps : List String) :
    mGetDeepLoop (.arr es props) (p :: ps)
      = mGetDeepLoop (mGetProp (.arr es props) p) ps := rfl

/-- Equation lemma: the walk check under an array node. -/
theorem ensureOk_arr (srcCur : JSValue) (es : List MValue)
    (props : List (String × MValue)) (seg : String) (rest : List String) :
    ensureOk srcCur (.arr es props) (seg :: rest)
      = (match segToNat? seg with
         | some i =>
           ensureOk (srcStep srcCur seg)
             (if (mElemsGet es i).isObjectNode then mElemsGet es i else .obj []) rest
         | none =>
           ensureOk (srcStep srcCur seg)
             (if (mFieldsGet props seg).isObjectNode then mFieldsGet props seg else .obj [])
             rest) := rfl

/-- Equation lemma: `ensureInstall` descending into an array at a numeric
segment. -/
theorem ensureInstall_arr_some (srcCur : JSValue) (es : List MValue)
    (props : List (String × MValue)) (rest : List String) (leafKey method : String)
    {seg : String} {i : Nat} (hk : segToNat? seg = some i) :
    ensureInstall srcCur (.arr es props) (seg :: rest) leafKey method
      = .arr (mElemsSet es i (ensureInstall (srcStep srcCur seg)
          (if (mElemsGet es i).isObjectNode then mElemsGet es i else .obj []) rest
          leafKey method)) props := by
  show (match segToNat? seg with
    | some j =>
      MValue.arr (mElemsSet es j (ensureInstall (srcStep srcCur seg)
        (if (mElemsGet es j).isObjectNode then mElemsGet es j else .obj []) rest
        leafKey method)) props
    | none =>
      MValue.arr es (mFieldsSet props seg (ensureInstall (srcStep srcCur seg)
        (if (mFieldsGet props seg).isObjectNode then mFieldsGet props seg
         else .obj []) rest leafKey method))) = _
  rw [hk]

/-- Equation lemma: `ensureInstall` descending into an array at a
non-numeric segment. -/
theorem ensureInstall_arr_none (srcCur : JSValue) (es : List MValue)
    (props : List (String × MValue)) (rest : List String) (leafKey method : String)
    {seg : String} (hk : segToNat? seg = none) :
    ensureInstall srcCur (.arr es props) (seg :: rest) leafKey method
      = .arr es (mFieldsSet props seg (ensureInstall (srcStep srcCur seg)
          (if (mFieldsGet props seg).isObjectNode then mFieldsGet props seg
           else .obj []) rest leafKey method)) := by
  show (match segToNat? seg with
    | some j =>
      MValue.arr (mElemsSet es j (ensureInstall (srcStep srcCur seg)
        (if (mElemsGet es j).isObjectNode then mElemsGet es j else .obj []) rest
        leafKey method)) props
    | none =>
      MValue.arr es (mFieldsSet props seg (ensureInstall (srcStep srcCur seg)
        (if (mFieldsGet props seg).isObjectNode then mFieldsGet props seg
         else .obj []) rest leafKey method))) = _
  rw [hk]

/-- Installing along an ok walk makes the full path read back as the
installed callable. -/
theorem ensureInstall_self : ∀ (segs : List String) (srcCur : JSValue) (cur : MValue)
    (leafKey method : String), ensureOk srcCur cur segs = true →
    mGetDeepLoop (ensureInstall srcCur cur segs leafKey method) (segs ++ [leafKey])
      = .callable method
  | [], srcCur, cur, leafKey, method, h => by
    cases cur with
    | obj fs =>
      show mGetDeepLoop (mFieldsGet (mFieldsSet fs leafKey (.callable method)) leafKey) []
        = .callable method
      rw [mFieldsGet_set_self]
      rfl
    | arr es props =>
      show mGetDeepLoop (mSetLeaf (.arr es props) leafKey (.callable method)) [leafKey]
        = .callable method
      cases hk : segToNat? leafKey with
      | some i =>
        rw [mSetLeaf_arr_some es props _ hk, mGetDeepLoop_arr_cons,
          mGetProp_arr_some _ _ hk, mElemsGet_set_self]
        rfl
      | none =>
        rw [mSetLeaf_arr_none es props _ hk, mGetDeepLoop_arr_cons,
          mGetProp_arr_none _ _ hk, mFieldsGet_set_self]
        rfl
    | undef => simp [ensureOk, MValue.isPlainNode] at h
    | null => simp [ensureOk, MValue.isPlainNode] at h
    | bool b => simp [ensureOk, MValue.isPlainNode] at h
    | num n => simp [ensureOk, MValue.isPlainNode] at h
    | str s => simp [ensureOk, MValue.isPlainNode] at h
    | bigint n => simp [ensureOk, MValue.isPlainNode] at h
    | rawFunc fid => simp [ensureOk, MValue.isPlainNode] at h
    | exotic t w j => simp [ensureOk, MValue.isPlainNode] at h
    | callable m => simp [ensureOk, MValue.isPlainNode] at h
  | seg :: rest, srcCur, cur, leafKey, method, h => by
    cases cur with
    | obj fs =>
      have h' : ensureOk (srcStep srcCur seg)
          (if (mFieldsGet fs seg).isObjectNode then mFieldsGet fs seg
           else match srcStep srcCur seg with
             | .arr _ => .arr [] []
             | _ => .obj []) rest = true := h
      show mGetDeepLoop
        (.obj (mFieldsSet fs seg (ensureInstall (srcStep srcCur seg)
          (if (mFieldsGet fs seg).isObjectNode then mFieldsGet fs seg
           else match srcStep srcCur seg with
             | .arr _ => .arr [] []
             | _ => .obj []) rest leafKey method)))
        ((seg :: rest) ++ [leafKey]) = .callable method
      rw [List.cons_append, mGetDeepLoop_obj_cons, mFieldsGet_set_self]
      exact ensureInstall_self rest (srcStep srcCur seg) _ leafKey method h'
    | arr es props =>
      cases hk : segToNat? seg with
      | some i =>
        have h' : ensureOk (srcStep srcCur seg)
            (if (mElemsGet es i).isObjectNode then mElemsGet es i else .obj []) rest
            = true := by
          rw [ensureOk_arr, hk] at h
          exact h
        rw [ensureInstall_arr_some srcCur es props rest leafKey method hk,
          List.cons_append, mGetDeepLoop_arr_cons, mGetProp_arr_some _ _ hk,
          mElemsGet_set_self]
        exact ensureInstall_self rest (srcStep srcCur seg) _ leafKey method h'
      | none =>
        have h' : ensureOk (srcStep srcCur seg)
            (if (mFieldsGet props seg).isObjectNode then mFieldsGet props seg else .obj [])
            rest = true := by
          rw [ensureOk_arr, hk] at h
          exact h
        rw [ensureInstall_arr_none srcCur es props rest leafKey method hk,
          List.cons_append, mGetDeepLoop_arr_cons, mGetProp_arr_none _ _ hk,
          mFieldsGet_set_self]
        exact ensureInstall_self rest (srcStep srcCur seg) _ leafKey method h'
    | undef => simp [ensureOk] at h
    | null => simp [ensureOk] at h
    | bool b => simp [ensureOk] at h
    | num n => simp [ensureOk] at h
    | str s => simp [ensureOk] at h
    | bigint n => simp [ensureOk] at h
    | rawFunc fid => simp [ensureOk] at h
    | exotic t w j => simp [ensureOk] at h
    | callable m => simp [ensureOk] at h

/-- Equation lemma: `ensureInstall` descending into an object child. -/
theorem ensureInstall_obj_cons (srcCur : JSValue) (fs : List (String × MValue))
    (seg : String) (rest : List String) (leafKey method : String) :
    ensureInstall srcCur (.obj fs) (seg :: rest) leafKey method
      = .obj (mFieldsSet fs seg (ensureInstall (srcStep srcCur seg)
          (if (mFieldsGet fs seg).isObjectNode then mFieldsGet fs seg
           else match srcStep srcCur seg with
             | .arr _ => .arr [] []
             | _ => .obj []) rest leafKey method)) := rfl

/-- Equation lemma: one step of the deep walk on any node. -/
theorem mGetDeepLoop_cons_eq (c : MValue) (p : String) (ps : List String) :
    mGetDeepLoop c (p :: ps)
      = if c.truthy then mGetDeepLoop (mGetProp c p) ps else .undef := rfl

/-- Property reads on a non-container node give `undefined`. -/
theorem mGetProp_nonplain (c : MValue) (p : String) (h : c.isPlainNode = false) :
    mGetProp c p = .undef := by
  cases c <;> first | rfl | simp [MValue.isPlainNode] at h

/-- A walk that ends on a callable must start from a plain container. -/
theorem walk_callable_isPlain (c : MValue) (p : String) (ps : List String) (m : String)
    (h : mGetDeepLoop c (p :: ps) = .callable m) : c.isPlainNode = true := by
  by_cases hp : c.isPlainNode = true
  · exact hp
  · exfalso
    have hp' : c.isPlainNode = false := by
      cases hb : c.isPlainNode
      · rfl
      · exact absurd hb hp
    rw [mGetDeepLoop_cons_eq, mGetProp_nonplain c p hp', mGetDeepLoop_undef, ite_self] at h
    exact MValue.noConfusion h

/-- A plain container passes the object-node replace-check. -/
theorem isPlainNode_isObjectNode (c : MValue) (h : c.isPlainNode = true) :
    c.isObjectNode = true := by
  cases c <;> first | rfl | simp [MValue.isPlainNode] at h

/-- The empty path is a run of every path: no divergence. -/
theorem bothDiverge_nil_left (b : List String) (h : bothDiverge [] b = true) : False := by
  simp [bothDiverge, segPre] at h

/-- Divergence is decided past a shared head segment. -/
theorem bothDiverge_cons (x : String) (xs ys : List String) :
    bothDiverge (x :: xs) (x :: ys) = bothDiverge xs ys := by
  simp [bothDiverge, segPre]

/-- A walk step through an array node after a leaf set (the set node is
still an array either way). -/
theorem mSetLeaf_arr_step (es : List MValue) (props : List (String × MValue))
    (k : String) (v : MValue) (a : String) (pa' : List String) :
    mGetDeepLoop (mSetLeaf (.arr es props) k v) (a :: pa')
      = mGetDeepLoop (mGetProp (mSetLeaf (.arr es props) k v) a) pa' := by
  cases hk : segToNat? k with
  | some i => rw [mSetLeaf_arr_some es props v hk, mGetDeepLoop_arr_cons]
  | none => rw [mSetLeaf_arr_none es props v hk, mGetDeepLoop_arr_cons]

/-- A leaf set at a different (canonical) key leaves all other property
reads of an array node unchanged. -/
theorem mSetLeaf_read_other (es : List MValue) (props : List (String × MValue))
    (k : String) (v : MValue) (a : String) (hca : canonicalSeg a = true)
    (hck : canonicalSeg k = true) (hne : ¬ a = k) :
    mGetProp (mSetLeaf (.arr es props) k v) a = mGetProp (.arr es props) a := by
  cases hk : segToNat? k with
  | some i =>
    rw [mSetLeaf_arr_some es props v hk]
    cases ha : segToNat? a with
    | some j =>
      rw [mGetProp_arr_some _ _ ha, mGetProp_arr_some _ _ ha]
      exact mElemsGet_set_other es i v j
        (fun hji => hne (canonicalSeg_inj hca hck ha
          (show segToNat? k = some j by rw [hji]; exact hk)))
    | none =>
      rw [mGetProp_arr_none _ _ ha, mGetProp_arr_none _ _ ha]
  | none =>
    rw [mSetLeaf_arr_none es props v hk]
    cases ha : segToNat? a with
    | some j =>
      rw [mGetProp_arr_some _ _ ha, mGetProp_arr_some _ _ ha]
    | none =>
      rw [mGetProp_arr_none _ _ ha, mGetProp_arr_none _ _ ha]
      exact mFieldsGet_set_other props k v a hne

/-- An install whose full path diverges from `pa` (canonical segments on
both sides) leaves the callable reachable at `pa` untouched. -/
theorem ensureInstall_keeps : ∀ (pa segs : List String) (srcCur : JSValue) (cur : MValue)
    (leafKey method m : String),
    bothDiverge pa (segs ++ [leafKey]) = true →
    (∀ s, s ∈ pa → canonicalSeg s = true) →
    (∀ s, s ∈ segs ++ [leafKey] → canonicalSeg s = true) →
    mGetDeepLoop cur pa = .callable m →
    mGetDeepLoop (ensureInstall srcCur cur segs leafKey method) pa = .callable m
  | [], _, _, _, _, _, _, hdiv, _, _, _ => (bothDiverge_nil_left _ hdiv).elim
  | a :: pa', segs, srcCur, cur, leafKey, method, m, hdiv, hcanA, hcanB, hwalk => by
    have hplain : cur.isPlainNode = true := walk_callable_isPlain cur a pa' m hwalk
    cases cur with
    | undef => simp [MValue.isPlainNode] at hplain
    | null => simp [MValue.isPlainNode] at hplain
    | bool b => simp [MValue.isPlainNode] at hplain
    | num n => simp [MValue.isPlainNode] at hplain
    | str s => simp [MValue.isPlainNode] at hplain
    | bigint n => simp [MValue.isPlainNode] at hplain
    | rawFunc fid => simp [MValue.isPlainNode] at hplain
    | exotic t w j => simp [MValue.isPlainNode] at hplain
    | callable mm => simp [MValue.isPlainNode] at hplain
    | obj fs =>
      rw [mGetDeepLoop_obj_cons] at hwalk
      cases segs with
      | nil =>
        have hne : ¬ a = leafKey := by
          intro he
          subst he
          simp [bothDiverge, segPre] at hdiv
        show mGetDeepLoop (.obj (mFieldsSet fs leafKey (.callable method))) (a :: pa')
          = .callable m
        rw [mGetDeepLoop_obj_cons, mFieldsGet_set_other fs leafKey _ a hne]
        exact hwalk
      | cons seg rest =>
        by_cases hsa : a = seg
        · subst hsa
          rw [List.cons_append, bothDiverge_cons] at hdiv
          have hchild : (mFieldsGet fs a).isPlainNode = true := by
            cases pa' with
            | nil => exact (bothDiverge_nil_left _ hdiv).elim
            | cons b pb => exact walk_callable_isPlain _ b pb m hwalk
          rw [ensureInstall_obj_cons, mGetDeepLoop_obj_cons, mFieldsGet_set_self,
            if_pos (isPlainNode_isObjectNode _ hchild)]
          exact ensureInstall_keeps pa' rest (srcStep srcCur a) (mFieldsGet fs a)
            leafKey method m hdiv
            (fun s hs => hcanA s (List.mem_cons_of_mem _ hs))
            (fun s hs => hcanB s (by rw [List.cons_append]; exact List.mem_cons_of_mem _ hs))
            hwalk
        · rw [ensureInstall_obj_cons, mGetDeepLoop_obj_cons,
            mFieldsGet_set_other fs seg _ a hsa]
          exact hwalk
    | arr es props =>
      rw [mGetDeepLoop_arr_cons] at hwalk
      have hca : canonicalSeg a = true := hcanA a (List.mem_cons_self a pa')
      cases segs with
      | nil =>
        have hne : ¬ a = leafKey := by
          intro he
          subst he
          simp [bothDiverge, segPre] at hdiv
        have hck : canonicalSeg leafKey = true := hcanB leafKey (by simp)
        show mGetDeepLoop (mSetLeaf (.arr es props) leafKey (.callable method)) (a :: pa')
          = .callable m
        rw [mSetLeaf_arr_step, mSetLeaf_read_other es props leafKey _ a hca hck hne]
        exact hwalk
      | cons seg rest =>
        by_cases hsa : a = seg
        · subst hsa
          rw [List.cons_append, bothDiverge_cons] at hdiv
          cases hk : segToNat? a with
          | some i =>
            rw [mGetProp_arr_some _ _ hk] at hwalk
            have hchild : (mElemsGet es i).isPlainNode = true := by
              cases pa' with
              | nil => exact (bothDiverge_nil_left _ hdiv).elim
              | cons b pb => exact walk_callable_isPlain _ b pb m hwalk
            rw [ensureInstall_arr_some srcCur es props rest leafKey method hk,
              mGetDeepLoop_arr_cons, mGetProp_arr_some _ _ hk, mElemsGet_set_self,
              if_pos (isPlainNode_isObjectNode _ hchild)]
            exact ensureInstall_keeps pa' rest (srcStep srcCur a) (mElemsGet es i)
              leafKey method m hdiv
              (fun s hs => hcanA s (List.mem_cons_of_mem _ hs))
              (fun s hs => hcanB s
                (by rw [List.cons_append]; exact List.mem_cons_of_mem _ hs))
              hwalk
          | none =>
            rw [mGetProp_arr_none _ _ hk] at hwalk
            have hchild : (mFieldsGet props a).isPlainNode = true := by
              cases pa' with
              | nil => exact (bothDiverge_nil_left _ hdiv).elim
              | cons b pb => exact walk_callable_isPlain _ b pb m hwalk
            rw [ensureInstall_arr_none srcCur es props rest leafKey method hk,
              mGetDeepLoop_arr_cons, mGetProp_arr_none _ _ hk, mFieldsGet_set_self,
              if_pos (isPlainNode_isObjectNode _ hchild)]
            exact ensureInstall_keeps pa' rest (srcStep srcCur a) (mFieldsGet props a)
              leafKey method m hdiv
              (fun s hs => hcanA s (List.mem_cons_of_mem _ hs))
              (fun s hs => hcanB s
                (by rw [List.cons_append]; exact List.mem_cons_of_mem _ hs))
              hwalk
        · have hcs : canonicalSeg seg = true := hcanB seg
            (by rw [List.cons_append]; exact List.mem_cons_self seg (rest ++ [leafKey]))
          cases hk : segToNat? seg with
          | some i =>
            rw [ensureInstall_arr_some srcCur es props rest leafKey method hk,
              mGetDeepLoop_arr_cons]
            cases ha : segToNat? a with
            | some j =>
              rw [mGetProp_arr_some _ _ ha,
                mElemsGet_set_other es i _ j
                  (fun hji => hsa (canonicalSeg_inj hca hcs ha
                    (show segToNat? seg = some j by rw [hji]; exact hk))),
                ← mGetProp_arr_some es props ha]
              exact hwalk
            | none =>
              rw [mGetProp_arr_none _ _ ha, ← mGetProp_arr_none es props ha]
              exact hwalk
          | none =>
            rw [ensureInstall_arr_none srcCur es props rest leafKey method hk,
              mGetDeepLoop_arr_cons]
            cases ha : segToNat? a with
            | some j =>
              rw [mGetProp_arr_some _ _ ha, ← mGetProp_arr_some es props ha]
              exact hwalk
            | none =>
              rw [mGetProp_arr_none _ _ ha, mFieldsGet_set_other props seg _ a hsa,
                ← mGetProp_arr_none es props ha]
              exact hwalk

/-- An install leaves a non-container node untouched. -/
theorem ensureInstall_nonplain (srcCur : JSValue) (cur : MValue) (segs : List String)
    (leafKey method : String) (h : cur.isPlainNode = false) :
    ensureInstall srcCur cur segs leafKey method = cur := by
  cases segs <;> cases cur <;> first | rfl | simp [MValue.isPlainNode] at h

/-- An install into a plain container yields a plain container. -/
theorem ensureInstall_plain (segs : List String) (srcCur : JSValue) (cur : MValue)
    (leafKey method : String) (h : cur.isPlainNode = true) :
    (ensureInstall srcCur cur segs leafKey method).isPlainNode = true := by
  cases segs with
  | nil =>
    cases cur with
    | obj fs => rfl
    | arr es props =>
      show (mSetLeaf (.arr es props) leafKey (.callable method)).isPlainNode = true
      cases hk : segToNat? leafKey with
      | some i =>
        rw [mSetLeaf_arr_some es props _ hk]
        rfl
      | none =>
        rw [mSetLeaf_arr_none es props _ hk]
        rfl
    | undef => simp [MValue.isPlainNode] at h
    | null => simp [MValue.isPlainNode] at h
    | bool b => simp [MValue.isPlainNode] at h
    | num n => simp [MValue.isPlainNode] at h
    | str s => simp [MValue.isPlainNode] at h
    | bigint n => simp [MValue.isPlainNode] at h
    | rawFunc fid => simp [MValue.isPlainNode] at h
    | exotic t w j => simp [MValue.isPlainNode] at h
    | callable m => simp [MValue.isPlainNode] at h
  | cons seg rest =>
    cases cur with
    | obj fs => rfl
    | arr es props =>
      cases hk : segToNat? seg with
      | some i =>
        rw [ensureInstall_arr_some srcCur es props rest leafKey method hk]
        rfl
      | none =>
        rw [ensureInstall_arr_none srcCur es props rest leafKey method hk]
        rfl
    | undef => simp [MValue.isPlainNode] at h
    | null => simp [MValue.isPlainNode] at h
    | bool b => simp [MValue.isPlainNode] at h
    | num n => simp [MValue.isPlainNode] at h
    | str s => simp [MValue.isPlainNode] at h
    | bigint n => simp [MValue.isPlainNode] at h
    | rawFunc fid => simp [MValue.isPlainNode] at h
    | exotic t w j => simp [MValue.isPlainNode] at h
    | callable m => simp [MValue.isPlainNode] at h

/-- The container forced from a source step (`[]` under a source array,
`\x7b\x7d` otherwise) is plain. -/
theorem forced_plain (x : JSValue) :
    (match x with
     | JSValue.arr _ => MValue.arr [] []
     | _ => MValue.obj []).isPlainNode = true := by
  cases x <;> rfl

/-- The ensure walk always succeeds from a forced container. -/
theorem ensureOk_forced (segs : List String) (srcCur : JSValue) (x : JSValue) :
    ensureOk srcCur
      (match x with
       | JSValue.arr _ => MValue.arr [] []
       | _ => MValue.obj []) segs = true := by
  cases x with
  | arr es => exact ensureOk_fresh segs srcCur _ (Or.inr rfl)
  | undef => exact ensureOk_fresh segs srcCur _ (Or.inl rfl)
  | null => exact ensureOk_fresh segs srcCur _ (Or.inl rfl)
  | bool b => exact ensureOk_fresh segs srcCur _ (Or.inl rfl)
  | num n => exact ensureOk_fresh segs srcCur _ (Or.inl rfl)
  | str s => exact ensureOk_fresh segs srcCur _ (Or.inl rfl)
  | bigint n => exact ensureOk_fresh segs srcCur _ (Or.inl rfl)
  | func fid => exact ensureOk_fresh segs srcCur _ (Or.inl rfl)
  | exotic t w j => exact ensureOk_fresh segs srcCur _ (Or.inl rfl)
  | obj fs => exact ensureOk_fresh segs srcCur _ (Or.inl rfl)

/-- Equation lemma: the walk check under an object node. -/
theorem ensureOk_obj (srcCur : JSValue) (fs : List (String × MValue)) (seg : String)
    (rest : List String) :
    ensureOk srcCur (.obj fs) (seg :: rest)
      = ensureOk (srcStep srcCur seg)
          (if (mFieldsGet fs seg).isObjectNode then mFieldsGet fs seg
           else match srcStep srcCur seg with
             | .arr _ => .arr [] []
             | _ => .obj []) rest := rfl

/-- Equation lemma: the walk check under an array node, numeric segment. -/
theorem ensureOk_arr_some (srcCur : JSValue) (es : List MValue)
    (props : List (String × MValue)) (rest : List String) {seg : String} {i : Nat}
    (hk : segToNat? seg = some i) :
    ensureOk srcCur (.arr es props) (seg :: rest)
      = ensureOk (srcStep srcCur seg)
          (if (mElemsGet es i).isObjectNode then mElemsGet es i else .obj []) rest := by
  rw [ensureOk_arr, hk]

/-- Equation lemma: the walk check under an array node, non-numeric
segment. -/
theorem ensureOk_arr_none (srcCur : JSValue) (es : List MValue)
    (props : List (String × MValue)) (rest : List String) {seg : String}
    (hk : segToNat? seg = none) :
    ensureOk srcCur (.arr es props) (seg :: rest)
      = ensureOk (srcStep srcCur seg)
          (if (mFieldsGet props seg).isObjectNode then mFieldsGet props seg else .obj [])
          rest := by
  rw [ensureOk_arr, hk]

/-- A (canonical-segment) install preserves the ensure walk of every other
canonical path. -/
theorem ensureOk_keeps : ∀ (pa segs : List String) (srcCur : JSValue) (cur : MValue)
    (leafKey method : String),
    (∀ s, s ∈ pa → canonicalSeg s = true) →
    (∀ s, s ∈ segs ++ [leafKey] → canonicalSeg s = true) →
    ensureOk srcCur cur pa = true →
    ensureOk srcCur (ensureInstall srcCur cur segs leafKey method) pa = true
  | [], segs, srcCur, cur, leafKey, method, _, _, h =>
    ensureInstall_plain segs srcCur cur leafKey method h
  | a :: pa', segs, srcCur, cur, leafKey, method, hcA, hcB, h => by
    cases cur with
    | undef => simp [ensureOk] at h
    | null => simp [ensureOk] at h
    | bool b => simp [ensureOk] at h
    | num n => simp [ensureOk] at h
    | str s => simp [ensureOk] at h
    | bigint n => simp [ensureOk] at h
    | rawFunc fid => simp [ensureOk] at h
    | exotic t w j => simp [ensureOk] at h
    | callable mm => simp [ensureOk] at h
    | obj fs =>
      have h' : ensureOk (srcStep srcCur a)
          (if (mFieldsGet fs a).isObjectNode then mFieldsGet fs a
           else match srcStep srcCur a with
             | .arr _ => .arr [] []
             | _ => .obj []) pa' = true := h
      cases segs with
      | nil =>
        by_cases hae : a = leafKey
        · subst hae
          show ensureOk srcCur (.obj (mFieldsSet fs a (.callable method))) (a :: pa') = true
          rw [ensureOk_obj, mFieldsGet_set_self,
            if_neg (by simp [MValue.isObjectNode] :
              ¬ (MValue.callable method).isObjectNode = true)]
          exact ensureOk_forced pa' _ _
        · show ensureOk srcCur (.obj (mFieldsSet fs leafKey (.callable method)))
            (a :: pa') = true
          rw [ensureOk_obj, mFieldsGet_set_other fs leafKey _ a hae]
          exact h'
      | cons seg rest =>
        have hcA' : ∀ s, s ∈ pa' → canonicalSeg s = true :=
          fun s hs => hcA s (List.mem_cons_of_mem _ hs)
        have hcB' : ∀ s, s ∈ rest ++ [leafKey] → canonicalSeg s = true :=
          fun s hs => hcB s (by rw [List.cons_append]; exact List.mem_cons_of_mem _ hs)
        by_cases hsa : a = seg
        · subst hsa
          rw [ensureInstall_obj_cons, ensureOk_obj, mFieldsGet_set_self]
          by_cases hobj : (mFieldsGet fs a).isObjectNode = true
          · have hx : ensureOk (srcStep srcCur a) (mFieldsGet fs a) pa' = true := by
              rw [if_pos hobj] at h'
              exact h'
            cases hpl : (mFieldsGet fs a).isPlainNode with
            | true =>
              have hE : (ensureInstall (srcStep srcCur a) (mFieldsGet fs a) rest leafKey
                  method).isObjectNode = true :=
                isPlainNode_isObjectNode _
                  (ensureInstall_plain rest (srcStep srcCur a) (mFieldsGet fs a)
                    leafKey method hpl)
              rw [if_pos hobj, if_pos hE]
              exact ensureOk_keeps pa' rest (srcStep srcCur a) (mFieldsGet fs a)
                leafKey method hcA' hcB' hx
            | false =>
              rw [if_pos hobj,
                ensureInstall_nonplain (srcStep srcCur a) (mFieldsGet fs a) rest
                  leafKey method hpl,
                if_pos hobj]
              exact hx
          · have hE : (ensureInstall (srcStep srcCur a)
                (match srcStep srcCur a with
                 | .arr _ => MValue.arr [] []
                 | _ => MValue.obj []) rest leafKey method).isObjectNode = true :=
              isPlainNode_isObjectNode _
                (ensureInstall_plain rest (srcStep srcCur a) _ leafKey method
                  (forced_plain (srcStep srcCur a)))
            rw [if_neg hobj, if_pos hE]
            exact ensureOk_keeps pa' rest (srcStep srcCur a) _ leafKey method hcA' hcB'
              (ensureOk_forced pa' (srcStep srcCur a) (srcStep srcCur a))
        · rw [ensureInstall_obj_cons, ensureOk_obj, mFieldsGet_set_other fs seg _ a hsa]
          exact h'
    | arr es props =>
      have hca : canonicalSeg a = true := hcA a (List.mem_cons_self a pa')
      cases segs with
      | nil =>
        have hck : canonicalSeg leafKey = true := hcB leafKey (by simp)
        show ensureOk srcCur (mSetLeaf (.arr es props) leafKey (.callable method))
          (a :: pa') = true
        by_cases hae : a = leafKey
        · subst hae
          cases hk : segToNat? a with
          | some i =>
            rw [mSetLeaf_arr_some es props _ hk, ensureOk_arr_some srcCur _ props pa' hk,
              mElemsGet_set_self,
              if_neg (by simp [MValue.isObjectNode] :
                ¬ (MValue.callable method).isObjectNode = true)]
            exact ensureOk_fresh pa' _ _ (Or.inl rfl)
          | none =>
            rw [mSetLeaf_arr_none es props _ hk, ensureOk_arr_none srcCur es _ pa' hk,
              mFieldsGet_set_self,
              if_neg (by simp [MValue.isObjectNode] :
                ¬ (MValue.callable method).isObjectNode = true)]
            exact ensureOk_fresh pa' _ _ (Or.inl rfl)
        · cases hk : segToNat? leafKey with
          | some i =>
            rw [mSetLeaf_arr_some es props _ hk]
            cases ha : segToNat? a with
            | some j =>
              have hij : ¬ j = i := fun hji => hae (canonicalSeg_inj hca hck ha
                (show segToNat? leafKey = some j by rw [hji]; exact hk))
              rw [ensureOk_arr_some srcCur _ props pa' ha, mElemsGet_set_other es i _ j hij]
              rw [ensureOk_arr_some srcCur es props pa' ha] at h
              exact h
            | none =>
              rw [ensureOk_arr_none srcCur _ props pa' ha]
              rw [ensureOk_arr_none srcCur es props pa' ha] at h
              exact h
          | none =>
            rw [mSetLeaf_arr_none es props _ hk]
            cases ha : segToNat? a with
            | some j =>
              rw [ensureOk_arr_some srcCur es _ pa' ha]
              rw [ensureOk_arr_some srcCur es props pa' ha] at h
              exact h
            | none =>
              rw [ensureOk_arr_none srcCur es _ pa' ha,
                mFieldsGet_set_other props leafKey _ a hae]
              rw [ensureOk_arr_none srcCur es props pa' ha] at h
              exact h
      | cons seg rest =>
        have hcA' : ∀ s, s ∈ pa' → canonicalSeg s = true :=
          fun s hs => hcA s (List.mem_cons_of_mem _ hs)
        have hcB' : ∀ s, s ∈ rest ++ [leafKey] → canonicalSeg s = true :=
          fun s hs => hcB s (by rw [List.cons_append]; exact List.mem_cons_of_mem _ hs)
        by_cases hsa : a = seg
        · subst hsa
          cases hk : segToNat? a with
          | some i =>
            rw [ensureInstall_arr_some srcCur es props rest leafKey method hk,
              ensureOk_arr_some srcCur _ props pa' hk, mElemsGet_set_self]
            rw [ensureOk_arr_some srcCur es props pa' hk] at h
            by_cases hobj : (mElemsGet es i).isObjectNode = true
            · have hx : ensureOk (srcStep srcCur a) (mElemsGet es i) pa' = true := by
                rw [if_pos hobj] at h
                exact h
              cases hpl : (mElemsGet es i).isPlainNode with
              | true =>
                have hE : (ensureInstall (srcStep srcCur a) (mElemsGet es i) rest leafKey
                    method).isObjectNode = true :=
                  isPlainNode_isObjectNode _
                    (ensureInstall_plain rest (srcStep srcCur a) (mElemsGet es i)
                      leafKey method hpl)
                rw [if_pos hobj, if_pos hE]
                exact ensureOk_keeps pa' rest (srcStep srcCur a) (mElemsGet es i)
                  leafKey method hcA' hcB' hx
              | false =>
                rw [if_pos hobj,
                  ensureInstall_nonplain (srcStep srcCur a) (mElemsGet es i) rest
                    leafKey method hpl,
                  if_pos hobj]
                exact hx
            · have hE : (ensureInstall (srcStep srcCur a) (MValue.obj []) rest leafKey
                  method).isObjectNode = true :=
                isPlainNode_isObjectNode _
                  (ensureInstall_plain rest (srcStep srcCur a) (.obj []) leafKey method rfl)
              rw [if_neg hobj, if_pos hE]
              exact ensureOk_keeps pa' rest (srcStep srcCur a) (.obj []) leafKey method
                hcA' hcB' (ensureOk_fresh pa' _ _ (Or.inl rfl))
          | none =>
            rw [ensureInstall_arr_none srcCur es props rest leafKey method hk,
              ensureOk_arr_none srcCur es _ pa' hk, mFieldsGet_set_self]
            rw [ensureOk_arr_none srcCur es props pa' hk] at h
            by_cases hobj : (mFieldsGet props a).isObjectNode = true
            · have hx : ensureOk (srcStep srcCur a) (mFieldsGet props a) pa' = true := by
                rw [if_pos hobj] at h
                exact h
              cases hpl : (mFieldsGet props a).isPlainNode with
              | true =>
                have hE : (ensureInstall (srcStep srcCur a) (mFieldsGet props a) rest
                    leafKey method).isObjectNode = true :=
                  isPlainNode_isObjectNode _
                    (ensureInstall_plain rest (srcStep srcCur a) (mFieldsGet props a)
                      leafKey method hpl)
                rw [if_pos hobj, if_pos hE]
                exact ensureOk_keeps pa' rest (srcStep srcCur a) (mFieldsGet props a)
                  leafKey method hcA' hcB' hx
              | false =>
                rw [if_pos hobj,
                  ensureInstall_nonplain (srcStep srcCur a) (mFieldsGet props a) rest
                    leafKey method hpl,
                  if_pos hobj]
                exact hx
            · have hE : (ensureInstall (srcStep srcCur a) (MValue.obj []) rest leafKey
                  method).isObjectNode = true :=
                isPlainNode_isObjectNode _
                  (ensureInstall_plain rest (srcStep srcCur a) (.obj []) leafKey method rfl)
              rw [if_neg hobj, if_pos hE]
              exact ensureOk_keeps pa' rest (srcStep srcCur a) (.obj []) leafKey method
                hcA' hcB' (ensureOk_fresh pa' _ _ (Or.inl rfl))
        · have hcs : canonicalSeg seg = true := hcB seg
            (by rw [List.cons_append]; exact List.mem_cons_self seg (rest ++ [leafKey]))
          cases hk : segToNat? seg with
          | some i =>
            rw [ensureInstall_arr_some srcCur es props rest leafKey method hk]
            cases ha : segToNat? a with
            | some j =>
              have hij : ¬ j = i := fun hji => hsa (canonicalSeg_inj hca hcs ha
                (show segToNat? seg = some j by rw [hji]; exact hk))
              rw [ensureOk_arr_some srcCur _ props pa' ha, mElemsGet_set_other es i _ j hij]
              rw [ensureOk_arr_some srcCur es props pa' ha] at h
              exact h
            | none =>
              rw [ensureOk_arr_none srcCur _ props pa' ha]
              rw [ensureOk_arr_none srcCur es props pa' ha] at h
              exact h
          | none =>
            rw [ensureInstall_arr_none srcCur es props rest leafKey method hk]
            cases ha : segToNat? a with
            | some j =>
              rw [ensureOk_arr_some srcCur es _ pa' ha]
              rw [ensureOk_arr_some srcCur es props pa' ha] at h
              exact h
            | none =>
              rw [ensureOk_arr_none srcCur es _ pa' ha,
                mFieldsGet_set_other props seg _ a hsa]
              rw [ensureOk_arr_none srcCur es props pa' ha] at h
              exact h

/-- `split('.')` always yields at least one segment. -/
theorem splitPathAux_ne_nil : ∀ (cs acc : List Char), splitPathAux cs acc ≠ []
  | [], acc => by simp [splitPathAux]
  | c :: cs, acc => by
    unfold splitPathAux
    by_cases hc : c = '.'
    · rw [if_pos hc]
      simp
    · rw [if_neg hc]
      exact splitPathAux_ne_nil cs (c :: acc)

/-- The segment list of a dotted path is never empty. -/
theorem splitPath_ne_nil (p : String) : splitPath p ≠ [] := splitPathAux_ne_nil _ _

/-- A nonempty list is its parent segments plus its last segment. -/
theorem dropLast_append_getLastD : ∀ (l : List String), l ≠ [] →
    l.dropLast ++ [(l.getLast?).getD ""] = l
  | [], h => absurd rfl h
  | [a], _ => rfl
  | a :: b :: t, _ => by
    have ih := dropLast_append_getLastD (b :: t) (by simp)
    show (a :: (b :: t).dropLast) ++ [((b :: t).getLast?).getD ""] = a :: b :: t
    rw [List.cons_append, ih]

/-- Equation lemma: install one dotted function path. -/
theorem installMethod_eq (values : JSValue) (root : MValue) (method : String) :
    installMethod values root method
      = ensureInstall values root (splitPath method).dropLast
          (((splitPath method).getLast?).getD "") method := rfl

/-- A run of installs whose full paths all diverge from `pa` keeps the
callable reachable at `pa`. -/
theorem foldl_keeps : ∀ (todo : List String) (values : JSValue) (root : MValue)
    (pa : List String) (m : String),
    (∀ s, s ∈ pa → canonicalSeg s = true) →
    (∀ p, p ∈ todo → ∀ s, s ∈ splitPath p → canonicalSeg s = true) →
    (∀ p, p ∈ todo → bothDiverge pa (splitPath p) = true) →
    mGetDeepLoop root pa = .callable m →
    mGetDeepLoop (todo.foldl (fun root method => installMethod values root method) root) pa
      = .callable m
  | [], values, root, pa, m, _, _, _, hw => hw
  | q :: todo', values, root, pa, m, hcA, hcT, hdT, hw => by
    show mGetDeepLoop (todo'.foldl (fun root method => installMethod values root method)
      (installMethod values root q)) pa = .callable m
    refine foldl_keeps todo' values (installMethod values root q) pa m hcA
      (fun p hp s hs => hcT p (List.mem_cons_of_mem _ hp) s hs)
      (fun p hp => hdT p (List.mem_cons_of_mem _ hp)) ?_
    rw [installMethod_eq]
    have hre : (splitPath q).dropLast ++ [((splitPath q).getLast?).getD ""]
        = splitPath q := dropLast_append_getLastD _ (splitPath_ne_nil q)
    refine ensureInstall_keeps pa (splitPath q).dropLast values root _ q m ?_ hcA ?_ hw
    · rw [hre]
      exact hdT q (List.mem_cons_self q todo')
    · intro s hs
      rw [hre] at hs
      exact hcT q (List.mem_cons_self q todo') s hs

/-- Installing a pairwise-diverging, canonical function set over a root
whose ensure walks all succeed makes every one of its dotted paths read
back as its callable. -/
theorem foldl_installs : ∀ (todo : List String) (values : JSValue) (root : MValue),
    (∀ p, p ∈ todo → ∀ s, s ∈ splitPath p → canonicalSeg s = true) →
    List.Pairwise (fun p q => bothDiverge (splitPath p) (splitPath q) = true) todo →
    (∀ p, p ∈ todo → ensureOk values root (splitPath p).dropLast = true) →
    ∀ p, p ∈ todo →
      mGetDeepLoop (todo.foldl (fun root method => installMethod values root method) root)
        (splitPath p) = .callable p
  | [], _, _, _, _, _, p, hp => absurd hp (List.not_mem_nil p)
  | q :: todo', values, root, hcT, hdP, hok, p, hp => by
    rw [List.pairwise_cons] at hdP
    obtain ⟨hdq, hdP'⟩ := hdP
    show mGetDeepLoop (todo'.foldl (fun root method => installMethod values root method)
      (installMethod values root q)) (splitPath p) = .callable p
    have hre : (splitPath q).dropLast ++ [((splitPath q).getLast?).getD ""]
        = splitPath q := dropLast_append_getLastD _ (splitPath_ne_nil q)
    rcases List.mem_cons.mp hp with hpq | hp'
    · subst hpq
      refine foldl_keeps todo' values (installMethod values root p) (splitPath p) p
        (fun s hs => hcT p (List.mem_cons_self p todo') s hs)
        (fun r hr s hs => hcT r (List.mem_cons_of_mem _ hr) s hs)
        (fun r hr => hdq r hr) ?_
      have base := ensureInstall_self (splitPath p).dropLast values root
        (((splitPath p).getLast?).getD "") p (hok p (List.mem_cons_self p todo'))
      rw [hre] at base
      rw [installMethod_eq]
      exact base
    · exact foldl_installs todo' values (installMethod values root q)
        (fun r hr s hs => hcT r (List.mem_cons_of_mem _ hr) s hs) hdP'
        (fun r hr => by
          rw [installMethod_eq]
          exact ensureOk_keeps (splitPath r).dropLast (splitPath q).dropLast values root
            _ q
            (fun s hs => hcT r (List.mem_cons_of_mem _ hr) s (List.dropLast_subset _ hs))
            (fun s hs => hcT q (List.mem_cons_self q todo') s (hre ▸ hs))
            (hok r (List.mem_cons_of_mem _ hr)))
        p hp'

/-- Witness snapshot for the materialised-root claim. -/
def matSnapshotW : JSValue :=
  .obj [("a", .obj [("b", .num 1)]), ("arr", .arr [.num 0])]

/-- Witness function set for the materialised-root claim. -/
def matFnsW : List String := ["a.f", "arr.0.g"]

/-- **C6** (claim): with `hideStructure` unset or `false` the init promise
of an unsettled Consumer resolves at READY to the materialised root
`materializeRoot` — the deep copy `cloneNode` of the (defaulted) snapshot
(`materializeRoot vals [] = mClone vals`) with, for every dotted path of
the function set (canonical segments, pairwise-diverging paths, ensure
walks succeeding over the clone), a callable installed at its leaf key so
the full path reads back as that callable; only with `hideStructure =
true` does it resolve to the lazy proxy instead. -/
theorem materialized_root_spec (opts : ConsumerOptions) (st : ConsumerState)
    (origin : String) (source : Option Nat) (values : JSValue)
    (functions : List String) (fns : List String) (vals : JSValue)
    (hns : st.initSettled = none) :
    (¬ opts.hideStructure = some true →
      (consumerOnReady opts st origin source values functions).1.initSettled
        = some (.resolvedMat (materializeRoot (if values.truthy then values else .obj [])
            (insertAll [] functions)))) ∧
    (opts.hideStructure = some true →
      (consumerOnReady opts st origin source values functions).1.initSettled
        = some .resolvedLazy) ∧
    materializeRoot vals [] = mClone vals ∧
    ((∀ p, p ∈ fns → ∀ s, s ∈ splitPath p → canonicalSeg s = true) →
      List.Pairwise (fun p q => bothDiverge (splitPath p) (splitPath q) = true) fns →
      (∀ p, p ∈ fns → ensureOk vals (mClone vals) (splitPath p).dropLast = true) →
      ∀ p, p ∈ fns →
        mGetDeepLoop (materializeRoot vals fns) (splitPath p) = .callable p) := by
  refine ⟨?_, ?_, rfl, ?_⟩
  · intro hhide
    have hm : materializeStructure opts = true := by
      unfold materializeStructure
      cases hh : opts.hideStructure with
      | none => rfl
      | some b =>
        cases b with
        | false => rfl
        | true => exact absurd hh hhide
    show (match st.initSettled with
      | some r => some r
      | none => some (if materializeStructure opts then
          InitResult.resolvedMat (materializeRoot
            (if values.truthy then values else .obj []) (insertAll [] functions))
        else .resolvedLazy)) = _
    rw [hns]
    show some (if materializeStructure opts then
        InitResult.resolvedMat (materializeRoot
          (if values.truthy then values else .obj []) (insertAll [] functions))
      else .resolvedLazy) = _
    rw [if_pos hm]
  · intro hhide
    have hm : ¬ materializeStructure opts = true := by
      unfold materializeStructure
      rw [hhide]
      exact fun hh => Bool.noConfusion hh
    show (match st.initSettled with
      | some r => some r
      | none => some (if materializeStructure opts then
          InitResult.resolvedMat (materializeRoot
            (if values.truthy then values else .obj []) (insertAll [] functions))
        else .resolvedLazy)) = _
    rw [hns]
    show some (if materializeStructure opts then
        InitResult.resolvedMat (materializeRoot
          (if values.truthy then values else .obj []) (insertAll [] functions))
      else .resolvedLazy) = _
    rw [if_neg hm]
  · intro hcanon hpair hok p hp
    exact foldl_installs fns vals (mClone vals) hcanon hpair hok p hp

/-- Witness: the claim theorem applied to a fresh Consumer with the default
options, and — through its install clause — a concrete materialised tree in
which the dotted paths `a.f` and `arr.0.g` both read back as their
callables. -/
theorem materialized_root_spec_witness :
    initialConsumerState.initSettled = none ∧
    ({ } : ConsumerOptions).hideStructure ≠ some true ∧
    mGetDeepLoop (materializeRoot matSnapshotW matFnsW) (splitPath "a.f")
      = .callable "a.f" ∧
    mGetDeepLoop (materializeRoot matSnapshotW matFnsW) (splitPath "arr.0.g")
      = .callable "arr.0.g" := by
  have h := materialized_root_spec { } initialConsumerState "https://one.example"
    (some 1) matSnapshotW matFnsW matFnsW matSnapshotW rfl
  refine ⟨rfl, by decide, ?_, ?_⟩
  · exact h.2.2.2 (by decide) (by decide) (by decide) "a.f" (by decide)
  · exact h.2.2.2 (by decide) (by decide) (by decide) "arr.0.g" (by decide)

end IframeRpc
